import Mathlib

/-!
Verification of the qlever-petrimaps geometry cache and requestor
(`src/qlever-petrimaps/server/Requestor.cpp` and the GeomCache translation
unit concatenated with it).

Modelling conventions.

* C++ `float`/`double` coordinate arithmetic is embedded as exact rational
  (`ℚ`) arithmetic; a C++ float-to-integer conversion (which truncates
  toward zero) is embedded as `truncQ`.
* The 16-bit entries of the compressed line-point stream are embedded as
  unbounded integers (`ℤ`); theorems about lines carry an explicit
  coordinate bound keeping every encoded value inside the `int16_t` range,
  which is the regime in which the embedding and the C++ arithmetic agree.
* The helpers `mCoord` / `rmCoord` / `isMCoord` and the constant
  `M_COORD_GRANULARITY` live in `qlever-petrimaps/Misc.h`, which is not
  part of the provided sources.  They are modelled from the spec (§3.2):
  a marker entry tags both coordinates with a bit testable via `isMCoord`,
  plain entries are 16-bit offsets from the current major origin, and the
  granularity is a power of two keeping offsets in `int16` range.  With
  16-bit entries this forces the granularity 16384 and the tag offset
  16384 used below (plain offsets then lie strictly between -16384 and
  16384 and can never be mistaken for markers).
* Fallible C++ operations (out-of-bounds reads, reads past the end of a
  buffer handed to a streaming callback) are embedded as `Option`-returning
  functions, `none` marking undefined behaviour.
-/

unseal Rat.add Rat.sub Rat.mul Rat.inv

/-- Truncation toward zero, the semantics of a C++ float-to-integer cast. -/
def truncQ (q : ℚ) : ℤ := if q < 0 then ⌈q⌉ else ⌊q⌋

/-- Modelled from the spec: granularity `G` of the M-coord delta scheme
(`M_COORD_GRANULARITY` from the missing `qlever-petrimaps/Misc.h`). -/
def M_COORD_GRANULARITY : ℤ := 16384

/-- Modelled from the spec: tag a major-origin coordinate as a marker. -/
def mCoord (c : ℤ) : ℤ := if c < 0 then c - 16384 else c + 16384

/-- Modelled from the spec: test whether a stream coordinate is a marker. -/
def isMCoord (c : ℤ) : Bool := decide (16384 ≤ c) || decide (c ≤ -16384)

/-- Modelled from the spec: recover the major origin from a marker. -/
def rmCoord (c : ℤ) : ℤ := if c < 0 then c + 16384 else c - 16384

theorem rmCoord_mCoord (c : ℤ) : rmCoord (mCoord c) = c := by
  unfold mCoord rmCoord
  by_cases h : c < 0
  · rw [if_pos h, if_pos (by omega), ]
    omega
  · rw [if_neg h, if_neg (by omega)]
    omega

theorem isMCoord_mCoord (c : ℤ) : isMCoord (mCoord c) = true := by
  unfold mCoord isMCoord
  by_cases h : c < 0
  · rw [if_pos h]
    simp only [Bool.or_eq_true, decide_eq_true_eq]
    omega
  · rw [if_neg h]
    simp only [Bool.or_eq_true, decide_eq_true_eq]
    omega

theorem isMCoord_eq_false {c : ℤ} (h1 : -16384 < c) (h2 : c < 16384) :
    isMCoord c = false := by
  unfold isMCoord
  simp only [Bool.or_eq_false_iff, decide_eq_false_iff_not]
  omega

theorem truncQ_intCast (z : ℤ) : truncQ (z : ℚ) = z := by
  unfold truncQ
  by_cases h : (z : ℚ) < 0
  · rw [if_pos h, Int.ceil_intCast]
  · rw [if_neg h, Int.floor_intCast]

theorem truncQ_of_nonneg {q : ℚ} (h : 0 ≤ q) : truncQ q = ⌊q⌋ := by
  unfold truncQ
  rw [if_neg (not_lt.2 h)]

theorem truncQ_of_nonpos {q : ℚ} (h : q ≤ 0) : truncQ q = ⌈q⌉ := by
  unfold truncQ
  rcases lt_or_eq_of_le h with h' | h'
  · rw [if_pos h']
  · rw [h']
    simp

theorem truncQ_mono {q r : ℚ} (h : q ≤ r) : truncQ q ≤ truncQ r := by
  unfold truncQ
  by_cases hq : q < 0
  · by_cases hr : r < 0
    · rw [if_pos hq, if_pos hr]
      exact Int.ceil_le_ceil h
    · rw [if_pos hq, if_neg hr]
      have h1 : ⌈q⌉ ≤ 0 := Int.ceil_le.2 (by exact_mod_cast hq.le)
      have h2 : (0 : ℤ) ≤ ⌊r⌋ := Int.floor_nonneg.2 (not_lt.1 hr)
      omega
  · rw [if_neg hq, if_neg (by push_neg at hq ⊢; exact le_trans hq h)]
    exact Int.floor_le_floor h

/-- Major origin chosen by `insertLine` for a coordinate: the C++
`int16_t main = x / M_COORD_GRANULARITY` (float division, truncating cast). -/
def encMain1 (x : ℚ) : ℤ := truncQ (x / (M_COORD_GRANULARITY : ℤ))

/-- Minor offset stored by `insertLine` for a coordinate: the C++
`int16_t minor = x - main * M_COORD_GRANULARITY` (truncating cast). -/
def encMinor1 (x : ℚ) : ℤ := truncQ (x - (encMain1 x : ℚ) * (M_COORD_GRANULARITY : ℤ))

theorem encMinor1_bounds_decomp (x : ℚ) :
    -M_COORD_GRANULARITY < encMinor1 x ∧ encMinor1 x < M_COORD_GRANULARITY ∧
      encMain1 x * M_COORD_GRANULARITY + encMinor1 x = truncQ x := by
  have hG : (0 : ℚ) < ((M_COORD_GRANULARITY : ℤ) : ℚ) := by
    unfold M_COORD_GRANULARITY
    norm_num
  set G : ℚ := ((M_COORD_GRANULARITY : ℤ) : ℚ) with hGdef
  by_cases hx : 0 ≤ x
  · -- nonneg branch: the truncating casts are floors
    have hm : encMain1 x = ⌊x / G⌋ := by
      unfold encMain1
      exact truncQ_of_nonneg (div_nonneg hx hG.le)
    have hsub : 0 ≤ x - (encMain1 x : ℚ) * G := by
      rw [hm]
      have h1 : ((⌊x / G⌋ : ℚ)) ≤ x / G := Int.floor_le (x / G)
      have h2 := (le_div_iff₀ hG).1 h1
      linarith
    have hsub2 : x - (encMain1 x : ℚ) * G < G := by
      rw [hm]
      have h2 := Int.lt_floor_add_one (x / G)
      have h3 := (div_lt_iff₀ hG).1 h2
      have h4 : ((⌊x / G⌋ : ℚ) + 1) * G = (⌊x / G⌋ : ℚ) * G + G := by ring
      linarith
    have hmi : encMinor1 x = ⌊x - (encMain1 x : ℚ) * G⌋ := truncQ_of_nonneg hsub
    refine ⟨?_, ?_, ?_⟩
    · rw [hmi]
      have : (0:ℤ) ≤ ⌊x - (encMain1 x : ℚ) * G⌋ := Int.floor_nonneg.2 hsub
      unfold M_COORD_GRANULARITY
      omega
    · rw [hmi]
      exact Int.floor_lt.2 (by exact_mod_cast hsub2)
    · rw [hmi, truncQ_of_nonneg hx]
      have : x - (encMain1 x : ℚ) * G = x - (encMain1 x * M_COORD_GRANULARITY : ℤ) := by
        push_cast
        ring
      rw [this, Int.floor_sub_int]
      ring
  · -- negative branch: the truncating casts are ceilings
    push_neg at hx
    have hm : encMain1 x = ⌈x / G⌉ := by
      unfold encMain1
      exact truncQ_of_nonpos (div_nonpos_of_nonpos_of_nonneg hx.le hG.le)
    have hsub : x - (encMain1 x : ℚ) * G ≤ 0 := by
      rw [hm]
      have h1 : x / G ≤ ((⌈x / G⌉ : ℚ)) := Int.le_ceil (x / G)
      have h2 := (div_le_iff₀ hG).1 h1
      linarith
    have hsub2 : -G < x - (encMain1 x : ℚ) * G := by
      rw [hm]
      have h2 := Int.ceil_lt_add_one (x / G)
      have h3 : ((⌈x / G⌉ : ℚ)) - 1 < x / G := by linarith
      have h4 := (lt_div_iff₀ hG).1 h3
      have h5 : ((⌈x / G⌉ : ℚ) - 1) * G = (⌈x / G⌉ : ℚ) * G - G := by ring
      linarith
    have hmi : encMinor1 x = ⌈x - (encMain1 x : ℚ) * G⌉ := truncQ_of_nonpos hsub
    refine ⟨?_, ?_, ?_⟩
    · rw [hmi]
      have : (-M_COORD_GRANULARITY : ℤ) < ⌈x - (encMain1 x : ℚ) * G⌉ := by
        refine Int.lt_ceil.2 ?_
        push_cast
        push_cast at hsub2
        linarith
      exact this
    · rw [hmi]
      have h0 : ⌈x - (encMain1 x : ℚ) * G⌉ ≤ 0 := Int.ceil_le.2 (by exact_mod_cast hsub)
      unfold M_COORD_GRANULARITY
      omega
    · rw [hmi, truncQ_of_nonpos hx.le]
      have : x - (encMain1 x : ℚ) * G = x - (encMain1 x * M_COORD_GRANULARITY : ℤ) := by
        push_cast
        ring
      rw [this, Int.ceil_sub_int]
      ring

theorem isMCoord_encMinor1 (x : ℚ) : isMCoord (encMinor1 x) = false := by
  obtain ⟨h1, h2, _⟩ := encMinor1_bounds_decomp x
  unfold M_COORD_GRANULARITY at h1 h2
  exact isMCoord_eq_false h1 h2

/-- Encoding of one vertex by the `insertLine` loop: starting from the current
major origin `main`, recompute a fresh major origin for the vertex, emit a
marker entry iff it differs from `main`, then emit the minor-offset entry
(lines 1207-1229 of the source; the same shape is used for the two bounding
box corners at lines 1169-1205). -/
def encStep (main : ℤ × ℤ) (p : ℚ × ℚ) : (ℤ × ℤ) × List (ℤ × ℤ) :=
  ((encMain1 p.1, encMain1 p.2),
    (if (encMain1 p.1, encMain1 p.2) ≠ main then
      [(mCoord (encMain1 p.1), mCoord (encMain1 p.2))]
    else []) ++ [(encMinor1 p.1, encMinor1 p.2)])

/-- Encoding of a vertex list, threading the major origin. -/
def encList (main : ℤ × ℤ) : List (ℚ × ℚ) → (ℤ × ℤ) × List (ℤ × ℤ)
  | [] => (main, [])
  | p :: t =>
    let s := encStep main p
    let r := encList s.1 t
    (r.1, s.2 ++ r.2)

/-- Axis-aligned bounding box of a vertex list (model of
`util::geo::getBoundingBox`): lower-left is the componentwise minimum,
upper-right the componentwise maximum. -/
def bboxFold (acc : (ℚ × ℚ) × (ℚ × ℚ)) (p : ℚ × ℚ) : (ℚ × ℚ) × (ℚ × ℚ) :=
  ((min acc.1.1 p.1, min acc.1.2 p.2), (max acc.2.1 p.1, max acc.2.2 p.2))

/-- Bounding box of a line; the empty case is never used by `insertLine`
(`parse` only inserts nonempty lines). -/
def getBoundingBoxQ : List (ℚ × ℚ) → (ℚ × ℚ) × (ℚ × ℚ)
  | [] => ((0, 0), (0, 0))
  | p :: t => t.foldl bboxFold ((p.1, p.2), (p.1, p.2))

/-- Embedding of `GeomCache::insertLine` (lines 1164-1239): the list of
M-coord entries appended to the line-point stream for line `l`.  The first
encoded point is the bounding box lower-left (marker emitted iff its major
origin is nonzero, matching `mainX != 0 || mainY != 0` against the initial
origin `(0,0)`), the second the bounding box upper-right, then the vertices,
then a final marker entry iff the line is an area. -/
def insertLine (l : List (ℚ × ℚ)) (isArea : Bool) : List (ℤ × ℤ) :=
  (encStep (0, 0) (getBoundingBoxQ l).1).2
    ++ (encStep (encStep (0, 0) (getBoundingBoxQ l).1).1 (getBoundingBoxQ l).2).2
    ++ (encList (encStep (encStep (0, 0) (getBoundingBoxQ l).1).1 (getBoundingBoxQ l).2).1 l).2
    ++ (if isArea then [(mCoord 0, mCoord 0)] else [])

/-- Decoding of an M-coord entry stream relative to a major origin: marker
entries re-base the origin and emit nothing, plain entries emit
`main * G + offset`.  This is the traversal shape shared by
`Requestor::request` (lines 207-238), `Requestor::getNearest`
(lines 350-385 and 412-429) and `GeomCache::getLineBBox`. -/
def decAux (main : ℤ × ℤ) : List (ℤ × ℤ) → List (ℤ × ℤ)
  | [] => []
  | e :: t =>
    if isMCoord e.1 then decAux (rmCoord e.1, rmCoord e.2) t
    else (main.1 * M_COORD_GRANULARITY + e.1, main.2 * M_COORD_GRANULARITY + e.2) :: decAux main t

/-- Decoding of a line's entry stream from the zero origin. -/
def decodeStream (s : List (ℤ × ℤ)) : List (ℤ × ℤ) := decAux (0, 0) s

/-- Truncated image of a rational point, the value an exact decode yields. -/
def truncPt (p : ℚ × ℚ) : ℤ × ℤ := (truncQ p.1, truncQ p.2)

theorem enc_decode_pt (m : ℤ × ℤ) (p : ℚ × ℚ) (h : (encMain1 p.1, encMain1 p.2) = m) :
    (m.1 * M_COORD_GRANULARITY + encMinor1 p.1, m.2 * M_COORD_GRANULARITY + encMinor1 p.2)
      = truncPt p := by
  subst h
  unfold truncPt
  simp only [Prod.mk.injEq]
  exact ⟨(encMinor1_bounds_decomp p.1).2.2, (encMinor1_bounds_decomp p.2).2.2⟩

theorem decAux_cons (main : ℤ × ℤ) (e : ℤ × ℤ) (t : List (ℤ × ℤ)) :
    decAux main (e :: t)
      = if isMCoord e.1 then decAux (rmCoord e.1, rmCoord e.2) t
        else (main.1 * M_COORD_GRANULARITY + e.1, main.2 * M_COORD_GRANULARITY + e.2)
          :: decAux main t := rfl

theorem decAux_encStep (main : ℤ × ℤ) (p : ℚ × ℚ) (rest : List (ℤ × ℤ)) :
    decAux main ((encStep main p).2 ++ rest)
      = truncPt p :: decAux (encStep main p).1 rest := by
  unfold encStep
  by_cases hm : (encMain1 p.1, encMain1 p.2) = main
  · rw [if_neg (not_not.2 hm)]
    simp only [List.nil_append, List.cons_append]
    rw [decAux_cons, if_neg (by rw [isMCoord_encMinor1]; simp)]
    rw [enc_decode_pt main p hm, hm]
  · rw [if_pos hm]
    simp only [List.cons_append, List.nil_append]
    rw [decAux_cons, if_pos (isMCoord_mCoord _), rmCoord_mCoord, rmCoord_mCoord]
    rw [decAux_cons, if_neg (by rw [isMCoord_encMinor1]; simp)]
    rw [enc_decode_pt (encMain1 p.1, encMain1 p.2) p rfl]

theorem decAux_encList (main : ℤ × ℤ) (l : List (ℚ × ℚ)) (rest : List (ℤ × ℤ)) :
    decAux main ((encList main l).2 ++ rest)
      = l.map truncPt ++ decAux (encList main l).1 rest := by
  induction l generalizing main with
  | nil => simp [encList]
  | cons p t ih =>
    show decAux main (((encStep main p).2 ++ (encList (encStep main p).1 t).2) ++ rest) = _
    rw [List.append_assoc, decAux_encStep, ih]
    rfl

theorem bboxFold_spec (t : List (ℚ × ℚ)) (acc : (ℚ × ℚ) × (ℚ × ℚ)) :
    (t.foldl bboxFold acc).1.1 ≤ acc.1.1 ∧ (t.foldl bboxFold acc).1.2 ≤ acc.1.2 ∧
    acc.2.1 ≤ (t.foldl bboxFold acc).2.1 ∧ acc.2.2 ≤ (t.foldl bboxFold acc).2.2 ∧
    ∀ p ∈ t, (t.foldl bboxFold acc).1.1 ≤ p.1 ∧ (t.foldl bboxFold acc).1.2 ≤ p.2 ∧
      p.1 ≤ (t.foldl bboxFold acc).2.1 ∧ p.2 ≤ (t.foldl bboxFold acc).2.2 := by
  induction t generalizing acc with
  | nil => simp
  | cons q r ih =>
    obtain ⟨i1, i2, i3, i4, i5⟩ := ih (bboxFold acc q)
    simp only [List.foldl_cons]
    have b1 : (bboxFold acc q).1.1 ≤ acc.1.1 := min_le_left _ _
    have b2 : (bboxFold acc q).1.2 ≤ acc.1.2 := min_le_left _ _
    have b3 : acc.2.1 ≤ (bboxFold acc q).2.1 := le_max_left _ _
    have b4 : acc.2.2 ≤ (bboxFold acc q).2.2 := le_max_left _ _
    have c1 : (bboxFold acc q).1.1 ≤ q.1 := min_le_right _ _
    have c2 : (bboxFold acc q).1.2 ≤ q.2 := min_le_right _ _
    have c3 : q.1 ≤ (bboxFold acc q).2.1 := le_max_right _ _
    have c4 : q.2 ≤ (bboxFold acc q).2.2 := le_max_right _ _
    refine ⟨le_trans i1 b1, le_trans i2 b2, le_trans b3 i3, le_trans b4 i4, ?_⟩
    intro p hp
    rcases List.mem_cons.1 hp with hp | hp
    · subst hp
      exact ⟨le_trans i1 c1, le_trans i2 c2, le_trans c3 i3, le_trans c4 i4⟩
    · exact i5 p hp

theorem getBoundingBoxQ_spec (l : List (ℚ × ℚ)) (h : l ≠ []) :
    (getBoundingBoxQ l).1.1 ≤ (getBoundingBoxQ l).2.1 ∧
    (getBoundingBoxQ l).1.2 ≤ (getBoundingBoxQ l).2.2 ∧
    ∀ p ∈ l, (getBoundingBoxQ l).1.1 ≤ p.1 ∧ (getBoundingBoxQ l).1.2 ≤ p.2 ∧
      p.1 ≤ (getBoundingBoxQ l).2.1 ∧ p.2 ≤ (getBoundingBoxQ l).2.2 := by
  match l with
  | [] => exact absurd rfl h
  | p :: t =>
    obtain ⟨i1, i2, i3, i4, i5⟩ := bboxFold_spec t ((p.1, p.2), (p.1, p.2))
    show (t.foldl bboxFold ((p.1, p.2), (p.1, p.2))).1.1 ≤ _ ∧ _
    refine ⟨le_trans i1 i3, le_trans i2 i4, ?_⟩
    intro q hq
    rcases List.mem_cons.1 hq with hq | hq
    · subst hq
      exact ⟨i1, i2, i3, i4⟩
    · exact i5 q hq

/-- Embedding of `GeomCache::getLineBBox` (lines 1242-1273): scan at most four
stream entries starting at the line's start offset, re-basing on markers,
record the first plain entry as the lower-left and return with the second as
the upper-right; `none` models the default-constructed `FBox` the C++
function returns when fewer than two plain entries occur among the first
four. -/
def getLineBBoxGo : ℕ → (ℤ × ℤ) → Option (ℤ × ℤ) → List (ℤ × ℤ) →
    Option ((ℤ × ℤ) × (ℤ × ℤ))
  | 0, _, _, _ => none
  | _ + 1, _, _, [] => none
  | k + 1, main, st, e :: t =>
    if isMCoord e.1 then getLineBBoxGo k (rmCoord e.1, rmCoord e.2) st t
    else
      match st with
      | none =>
        getLineBBoxGo k main
          (some (main.1 * M_COORD_GRANULARITY + e.1, main.2 * M_COORD_GRANULARITY + e.2)) t
      | some ll =>
        some (ll, (main.1 * M_COORD_GRANULARITY + e.1, main.2 * M_COORD_GRANULARITY + e.2))

/-- The bounding box `getLineBBox` reads from a line whose entries start the
given stream. -/
def getLineBBox (s : List (ℤ × ℤ)) : Option ((ℤ × ℤ) × (ℤ × ℤ)) :=
  getLineBBoxGo 4 (0, 0) none s

theorem getLineBBoxGo_marker (k : ℕ) (main : ℤ × ℤ) (a b : ℤ) (st : Option (ℤ × ℤ))
    (t : List (ℤ × ℤ)) :
    getLineBBoxGo (k + 1) main st ((mCoord a, mCoord b) :: t)
      = getLineBBoxGo k (a, b) st t := by
  show (if isMCoord (mCoord a) then _ else _) = _
  rw [if_pos (isMCoord_mCoord _), rmCoord_mCoord, rmCoord_mCoord]

theorem getLineBBoxGo_minor_none (k : ℕ) (main : ℤ × ℤ) (p : ℚ × ℚ)
    (t : List (ℤ × ℤ)) (hm : (encMain1 p.1, encMain1 p.2) = main) :
    getLineBBoxGo (k + 1) main none ((encMinor1 p.1, encMinor1 p.2) :: t)
      = getLineBBoxGo k main (some (truncPt p)) t := by
  show (if isMCoord (encMinor1 p.1) then _ else _) = _
  rw [if_neg (by rw [isMCoord_encMinor1]; simp)]
  rw [enc_decode_pt main p hm]

theorem getLineBBoxGo_minor_some (k : ℕ) (main ll : ℤ × ℤ) (p : ℚ × ℚ)
    (t : List (ℤ × ℤ)) (hm : (encMain1 p.1, encMain1 p.2) = main) :
    getLineBBoxGo (k + 1) main (some ll) ((encMinor1 p.1, encMinor1 p.2) :: t)
      = some (ll, truncPt p) := by
  show (if isMCoord (encMinor1 p.1) then _ else _) = _
  rw [if_neg (by rw [isMCoord_encMinor1]; simp)]
  rw [enc_decode_pt main p hm]

theorem getLineBBox_encPair (p q : ℚ × ℚ) (tail : List (ℤ × ℤ)) :
    getLineBBox ((encStep (0, 0) p).2 ++ ((encStep (encStep (0, 0) p).1 q).2 ++ tail))
      = some (truncPt p, truncPt q) := by
  unfold getLineBBox encStep
  by_cases h1 : (encMain1 p.1, encMain1 p.2) = ((0 : ℤ), (0 : ℤ)) <;>
    by_cases h2 : (encMain1 q.1, encMain1 q.2) = (encMain1 p.1, encMain1 p.2)
  · -- no marker before either corner
    rw [if_neg (not_not.2 h1), if_neg (not_not.2 h2)]
    simp only [List.nil_append, List.cons_append]
    rw [getLineBBoxGo_minor_none 3 (0, 0) p _ h1]
    rw [getLineBBoxGo_minor_some 2 (0, 0) _ q _ (h2.trans h1)]
  · -- marker only before the upper-right corner
    rw [if_neg (not_not.2 h1), if_pos h2]
    simp only [List.nil_append, List.cons_append]
    rw [getLineBBoxGo_minor_none 3 (0, 0) p _ h1]
    rw [getLineBBoxGo_marker 2 _ (encMain1 q.1) (encMain1 q.2) _ _]
    rw [getLineBBoxGo_minor_some 1 _ _ q _ rfl]
  · -- marker only before the lower-left corner
    rw [if_pos h1, if_neg (not_not.2 h2)]
    simp only [List.nil_append, List.cons_append]
    rw [getLineBBoxGo_marker 3 _ (encMain1 p.1) (encMain1 p.2) _ _]
    rw [getLineBBoxGo_minor_none 2 _ p _ rfl]
    rw [getLineBBoxGo_minor_some 1 _ _ q _ h2]
  · -- markers before both corners
    rw [if_pos h1, if_pos h2]
    simp only [List.nil_append, List.cons_append]
    rw [getLineBBoxGo_marker 3 _ (encMain1 p.1) (encMain1 p.2) _ _]
    rw [getLineBBoxGo_minor_none 2 _ p _ rfl]
    rw [getLineBBoxGo_marker 1 _ (encMain1 q.1) (encMain1 q.2) _ _]
    rw [getLineBBoxGo_minor_some 0 _ _ q _ rfl]

theorem decAux_area (main : ℤ × ℤ) (b : Bool) :
    decAux main (if b then [(mCoord 0, mCoord 0)] else []) = [] := by
  cases b
  · rfl
  · show decAux main ((mCoord 0, mCoord 0) :: []) = []
    rw [decAux_cons, if_pos (isMCoord_mCoord _)]
    rfl

/-- C1.  For every nonempty line (with coordinates in the range where the
C++ `int16_t` arithmetic is exact), the entry stream appended by
`insertLine` decodes to: the truncated bounding box lower-left, then the
truncated bounding box upper-right, then the truncated vertices; the decoded
box is non-inverted, every decoded vertex lies inside it, and `getLineBBox`
applied at the line's start offset (with arbitrary further stream contents
behind it) returns exactly this box. -/
theorem C1_insertLine_bbox (l : List (ℚ × ℚ)) (isArea : Bool) (rest : List (ℤ × ℤ))
    (hne : l ≠ [])
    (_hbound : (l.all fun p => decide (|p.1| ≤ 2 ^ 25) && decide (|p.2| ≤ 2 ^ 25)) = true) :
    decodeStream (insertLine l isArea)
      = truncPt (getBoundingBoxQ l).1 :: truncPt (getBoundingBoxQ l).2 :: l.map truncPt
    ∧ (truncPt (getBoundingBoxQ l).1).1 ≤ (truncPt (getBoundingBoxQ l).2).1
    ∧ (truncPt (getBoundingBoxQ l).1).2 ≤ (truncPt (getBoundingBoxQ l).2).2
    ∧ ((l.map truncPt).all fun v =>
        decide ((truncPt (getBoundingBoxQ l).1).1 ≤ v.1)
          && decide (v.1 ≤ (truncPt (getBoundingBoxQ l).2).1)
          && decide ((truncPt (getBoundingBoxQ l).1).2 ≤ v.2)
          && decide (v.2 ≤ (truncPt (getBoundingBoxQ l).2).2)) = true
    ∧ getLineBBox (insertLine l isArea ++ rest)
      = some (truncPt (getBoundingBoxQ l).1, truncPt (getBoundingBoxQ l).2) := by
  obtain ⟨hb1, hb2, hb3⟩ := getBoundingBoxQ_spec l hne
  refine ⟨?_, ?_, ?_, ?_, ?_⟩
  · -- the stream decodes to LL :: UR :: vertices
    unfold decodeStream insertLine
    rw [List.append_assoc, List.append_assoc]
    rw [decAux_encStep, decAux_encStep, decAux_encList, decAux_area]
    rw [List.append_nil]
  · exact truncQ_mono hb1
  · exact truncQ_mono hb2
  · -- every decoded vertex lies inside the decoded box
    rw [List.all_eq_true]
    intro v hv
    obtain ⟨p, hp, hpv⟩ := List.mem_map.1 hv
    obtain ⟨k1, k2, k3, k4⟩ := hb3 p hp
    subst hpv
    simp only [Bool.and_eq_true, decide_eq_true_eq]
    exact ⟨⟨⟨truncQ_mono k1, truncQ_mono k3⟩, truncQ_mono k2⟩, truncQ_mono k4⟩
  · -- getLineBBox returns the decoded box
    unfold insertLine
    rw [List.append_assoc, List.append_assoc, List.append_assoc]
    exact getLineBBox_encPair (getBoundingBoxQ l).1 (getBoundingBoxQ l).2 _

/-- Witness for C1 at a concrete two-vertex line (one vertex with a
fractional coordinate, one outside the zero major cell). -/
theorem C1_insertLine_bbox_witness :
    (([((3 : ℚ)/2, 20000), (16385, -5)] : List (ℚ × ℚ)) ≠ []
      ∧ (([((3 : ℚ)/2, 20000), (16385, -5)] : List (ℚ × ℚ)).all fun p =>
          decide (|p.1| ≤ 2 ^ 25) && decide (|p.2| ≤ 2 ^ 25)) = true)
    ∧ (decodeStream (insertLine [((3 : ℚ)/2, 20000), (16385, -5)] true)
        = truncPt (getBoundingBoxQ [((3 : ℚ)/2, 20000), (16385, -5)]).1
            :: truncPt (getBoundingBoxQ [((3 : ℚ)/2, 20000), (16385, -5)]).2
            :: ([((3 : ℚ)/2, 20000), (16385, -5)] : List (ℚ × ℚ)).map truncPt
      ∧ (truncPt (getBoundingBoxQ [((3 : ℚ)/2, 20000), (16385, -5)]).1).1
          ≤ (truncPt (getBoundingBoxQ [((3 : ℚ)/2, 20000), (16385, -5)]).2).1
      ∧ (truncPt (getBoundingBoxQ [((3 : ℚ)/2, 20000), (16385, -5)]).1).2
          ≤ (truncPt (getBoundingBoxQ [((3 : ℚ)/2, 20000), (16385, -5)]).2).2
      ∧ ((([((3 : ℚ)/2, 20000), (16385, -5)] : List (ℚ × ℚ)).map truncPt).all fun v =>
          decide ((truncPt (getBoundingBoxQ [((3 : ℚ)/2, 20000), (16385, -5)]).1).1 ≤ v.1)
            && decide (v.1 ≤ (truncPt (getBoundingBoxQ [((3 : ℚ)/2, 20000), (16385, -5)]).2).1)
            && decide ((truncPt (getBoundingBoxQ [((3 : ℚ)/2, 20000), (16385, -5)]).1).2 ≤ v.2)
            && decide (v.2 ≤ (truncPt (getBoundingBoxQ [((3 : ℚ)/2, 20000), (16385, -5)]).2).2)) = true
      ∧ getLineBBox (insertLine [((3 : ℚ)/2, 20000), (16385, -5)] true ++ [])
          = some (truncPt (getBoundingBoxQ [((3 : ℚ)/2, 20000), (16385, -5)]).1,
                  truncPt (getBoundingBoxQ [((3 : ℚ)/2, 20000), (16385, -5)]).2)) :=
  ⟨⟨by decide, by decide⟩,
    C1_insertLine_bbox [((3 : ℚ)/2, 20000), (16385, -5)] true [] (by decide) (by decide)⟩

/-- Embedding of the candidate-line distance loop of `Requestor::getNearest`
(lines 340-385): walk the entry stream, re-base on markers, skip the first
two plain entries (the stored bounding box), then fold the external
`util::geo::distToSegment` (passed as the parameter `fn`, since `util` is a
collaborating library) over consecutive decoded vertices, with the early
exit `d = 0; break` when a segment distance falls below `0.0001`.  The
initial distance `infinity` is `⊤` in `WithTop ℚ`.  The loop never reads
the search radius. -/
def lineSectionGo (fn : (ℤ × ℤ) → (ℤ × ℤ) → (ℚ × ℚ) → ℚ) (rp : ℚ × ℚ) :
    List (ℤ × ℤ) → (ℤ × ℤ) → ℕ → Bool → (ℤ × ℤ) → WithTop ℚ → WithTop ℚ
  | [], _, _, _, _, d => d
  | e :: t, main, gi, started, pa, d =>
    if isMCoord e.1 then lineSectionGo fn rp t (rmCoord e.1, rmCoord e.2) gi started pa d
    else if gi + 1 < 3 then lineSectionGo fn rp t main (gi + 1) started pa d
    else
      if started then
        if fn pa (main.1 * M_COORD_GRANULARITY + e.1, main.2 * M_COORD_GRANULARITY + e.2) rp
            < 1 / 10000 then ((0 : ℚ) : WithTop ℚ)
        else
          lineSectionGo fn rp t main (gi + 1) true
            (main.1 * M_COORD_GRANULARITY + e.1, main.2 * M_COORD_GRANULARITY + e.2)
            (if ((fn pa (main.1 * M_COORD_GRANULARITY + e.1,
                    main.2 * M_COORD_GRANULARITY + e.2) rp : ℚ) : WithTop ℚ) < d
             then ((fn pa (main.1 * M_COORD_GRANULARITY + e.1,
                    main.2 * M_COORD_GRANULARITY + e.2) rp : ℚ) : WithTop ℚ)
             else d)
      else
        lineSectionGo fn rp t main (gi + 1) true
          (main.1 * M_COORD_GRANULARITY + e.1, main.2 * M_COORD_GRANULARITY + e.2) d

/-- Distance of a candidate line's stream from `rp`, as computed by the line
section of `getNearest`. -/
def lineSectionDist (fn : (ℤ × ℤ) → (ℤ × ℤ) → (ℚ × ℚ) → ℚ) (entries : List (ℤ × ℤ))
    (rp : ℚ × ℚ) : WithTop ℚ :=
  lineSectionGo fn rp entries (0, 0) 0 false (0, 0) ⊤

/-- Outcome of the final comparison of `getNearest` (lines 396-435). -/
inductive NearestSel where
  | pointHit
  | lineHit
  | noHit
deriving DecidableEq

/-- Embedding of the final comparison of `getNearest`: the point candidate is
returned iff `dBest < rad` and `dBest <= dBestL`, else the line candidate
iff `dBestL < rad` and `dBestL <= dBest`, else no hit. -/
def selectNearest (dBest dBestL : WithTop ℚ) (rad : ℚ) : NearestSel :=
  if dBest < ((rad : ℚ) : WithTop ℚ) ∧ dBest ≤ dBestL then .pointHit
  else if dBestL < ((rad : ℚ) : WithTop ℚ) ∧ dBestL ≤ dBest then .lineHit
  else .noHit

/-- A stream is an area iff its trailing entry is a marker (the convention
established by `insertLine`, line 1233: "if we have an area, we end in a
major coord"). -/
def isAreaStream (s : List (ℤ × ℤ)) : Bool :=
  match s.getLast? with
  | none => false
  | some e => isMCoord e.1

/-- Model of `util::geo::distToSegment` sufficient for the counterexample:
it equals the Euclidean point-to-segment distance whenever the segment is
axis-aligned and the query point projects into the segment's interior,
which holds for every segment of the axis-aligned ring used below. -/
def aaDist (a b : ℤ × ℤ) (p : ℚ × ℚ) : ℚ :=
  if a.2 = b.2 then |p.2 - (a.2 : ℚ)| else |p.1 - (a.1 : ℚ)|

/-- Closed axis-aligned square ring used by the C2 counterexample. -/
def squareRing : List (ℚ × ℚ) := [(0, 0), (10, 0), (10, 10), (0, 10), (0, 0)]

/-- C2, counterexample.  The claim says the traversed distance of an area
containing `rp` is overwritten with `rad/4` before the minima are compared.
The code contains no such overwrite: for the concrete square area
`squareRing` (trailing marker present) and the query point `(5,5)` strictly
inside it, the computed line distance is the raw minimum segment distance
`5`, not `rad/4 = 25` for `rad = 100`. -/
theorem C2_counterexample :
    isAreaStream (insertLine squareRing true) = true
    ∧ ((0 : ℚ) < 5 ∧ (5 : ℚ) < 10)
    ∧ lineSectionDist aaDist (insertLine squareRing true) (5, 5) = ((5 : ℚ) : WithTop ℚ)
    ∧ (100 : ℚ) / 4 = 25
    ∧ ((5 : ℚ) : WithTop ℚ) ≠ ((25 : ℚ) : WithTop ℚ) := by
  refine ⟨by decide, ⟨by norm_num, by norm_num⟩, by decide, by norm_num, by decide⟩

/-- C2, amended.  `getNearest` performs no area detection and no `rad/4`
overwrite: a candidate line's distance is the plain traversal minimum (and
never depends on `rad`); a point candidate at distance `0` is nevertheless
preferred over any surrounding polygon, because the point branch of the
final comparison is taken whenever `dBest <= dBestL` and `dBest < rad`. -/
theorem C2_zero_point_preferred (fn : (ℤ × ℤ) → (ℤ × ℤ) → (ℚ × ℚ) → ℚ)
    (entries : List (ℤ × ℤ)) (rp : ℚ × ℚ) (rad : ℚ)
    (h0 : (0 : WithTop ℚ) ≤ lineSectionDist fn entries rp) (hrad : 0 < rad) :
    selectNearest 0 (lineSectionDist fn entries rp) rad = .pointHit := by
  unfold selectNearest
  rw [if_pos ⟨by exact_mod_cast hrad, h0⟩]

/-- Witness for C2's amended theorem at the square-ring counterexample
inputs. -/
theorem C2_zero_point_preferred_witness :
    ((0 : WithTop ℚ) ≤ lineSectionDist aaDist (insertLine squareRing true) (5, 5)
      ∧ (0 : ℚ) < 100)
    ∧ selectNearest 0 (lineSectionDist aaDist (insertLine squareRing true) (5, 5)) 100
        = .pointHit :=
  ⟨⟨by decide, by norm_num⟩,
    C2_zero_point_preferred aaDist (insertLine squareRing true) (5, 5) 100
      (by decide) (by norm_num)⟩

/-- Mapping from a preliminary flag / backend QID to an internal geometry id
(`IdMapping` from the missing `qlever-petrimaps/Misc.h`, modelled from the
spec section 3.1: a pair of a 64-bit `qid` and a 32-bit geometry id). -/
structure IdMapping where
  qid : ℕ
  id : ℕ
deriving DecidableEq, Repr

/-- Modelled from the spec (section 3.1): the point/line partition offset of
the geometry-id space (`I_OFFSET` from the missing Misc.h, "implementation
chosen, e.g. 2^31"). -/
def I_OFFSET : ℕ := 2 ^ 31

/-- The invalid-geometry sentinel `std::numeric_limits<ID_TYPE>::max()`
(`ID_TYPE` is 32-bit unsigned per spec section 3.1). -/
def ID_MAX : ℕ := 2 ^ 32 - 1

/-- Model of `std::lower_bound` over `arr[lo..hi)` with the qid-comparing
`IdMapping` order (the operator of the missing Misc.h, modelled from spec
section 3.3: ordering by `qid`): the first index in `[lo, hi)` whose entry is
not less than the target, `hi` if none. -/
def lowerBoundFrom (arr : List IdMapping) (lo hi : ℕ) (t : IdMapping) : ℕ :=
  (((List.range' lo (hi - lo)).find? fun j =>
    decide (t.qid ≤ (arr.getD j ⟨0, 0⟩).qid))).getD hi

/-- The galloping phase of `GeomCache::getRelObjects` (lines 1138-1156):
double the stride until it reaches the end or overshoots the target, then
binary-search (here: `lowerBoundFrom`, result-equivalent to
`std::lower_bound`) inside the final stride.  The stride doubles each round,
so `arr.length + 2` rounds of fuel always suffice; the fuel-exhausted
fallback is never reached. -/
def gallopSearch (arr : List IdMapping) (t : IdMapping) (j : ℕ) :
    ℕ → ℕ → ℕ
  | 0, _ => j + 1
  | fuel + 1, g =>
    if arr.length ≤ j + g then lowerBoundFrom arr (j + g / 2) arr.length t
    else if t.qid ≤ (arr.getD (j + g) ⟨0, 0⟩).qid then
      lowerBoundFrom arr (j + g / 2) (j + g) t
    else gallopSearch arr t j fuel (2 * g)

/-- Embedding of the merge loop of `GeomCache::getRelObjects`
(lines 1120-1161): while both cursors are in range, on equal qids emit
`(qidToId[j].id, ids[i].id)` and advance `j`; if the request qid is smaller
advance `i`; otherwise gallop `j` forward.  Every iteration strictly
advances `i` or `j`, so the fuel `ids.length + qarr.length + 1` is exact. -/
def getRelObjectsGo (ids qarr : List IdMapping) :
    ℕ → ℕ → ℕ → List (ℕ × ℕ) → List (ℕ × ℕ)
  | 0, _, _, acc => acc
  | fuel + 1, i, j, acc =>
    if i < ids.length ∧ j < qarr.length then
      if (ids.getD i ⟨0, 0⟩).qid = (qarr.getD j ⟨0, 0⟩).qid then
        getRelObjectsGo ids qarr fuel i (j + 1)
          (acc ++ [((qarr.getD j ⟨0, 0⟩).id, (ids.getD i ⟨0, 0⟩).id)])
      else if (ids.getD i ⟨0, 0⟩).qid < (qarr.getD j ⟨0, 0⟩).qid then
        getRelObjectsGo ids qarr fuel (i + 1) j acc
      else
        getRelObjectsGo ids qarr fuel i
          (gallopSearch qarr (ids.getD i ⟨0, 0⟩) j (qarr.length + 2) 1) acc
    else acc

/-- The (gid, row) pairs `getRelObjects` returns for a sorted request-id list
against the cache's `qidToId` table. -/
def getRelObjects (ids qarr : List IdMapping) : List (ℕ × ℕ) :=
  getRelObjectsGo ids qarr (ids.length + qarr.length + 1) 0 0 []

/-- The two parser states of the TSV state machine (`IN_HEADER`, `IN_ROW`). -/
inductive ParserPhase where
  | inHeader
  | inRow
deriving DecidableEq, Repr

/-- State of the streaming WKT parser of `GeomCache::parse` and the scratch
stores it writes (the scratch files are embedded as the lists they
contain). -/
structure PState where
  phase : ParserPhase
  dangling : List Char
  prev : List Char
  lastQidToId : IdMapping
  pointsFSize : ℕ
  linesFSize : ℕ
  linePointsFSize : ℕ
  qidToIdFSize : ℕ
  curUniqueGeom : ℕ
  curRow : ℕ
  points : List (ℚ × ℚ)
  linePoints : List (ℤ × ℤ)
  lines : List ℕ
  qidToId : List IdMapping
deriving DecidableEq, Repr

/-- Append one `IdMapping` to the qid scratch store, tracking
`_lastQidToId` and `_qidToIdFSize` exactly as every write site does. -/
def appendMapping (m : IdMapping) (s : PState) : PState :=
  { s with qidToId := s.qidToId ++ [m], qidToIdFSize := s.qidToIdFSize + 1,
           lastQidToId := m }

/-- Store one parsed line: record the current line-point offset in `lines`,
bump `_linesFSize`, append the `insertLine` entries, then write the mapping
`{flag, I_OFFSET + _linesFSize - 1}` (lines 605-614 and the analogous
polygon/multi blocks). -/
def insertLineState (line : List (ℚ × ℚ)) (isArea : Bool) (flagQid : ℕ)
    (s : PState) : PState :=
  appendMapping ⟨flagQid, I_OFFSET + s.linesFSize⟩
    { s with lines := s.lines ++ [s.linePointsFSize],
             linesFSize := s.linesFSize + 1,
             linePoints := s.linePoints ++ insertLine line isArea,
             linePointsFSize := s.linePointsFSize + (insertLine line isArea).length }

/-- Model of `std::string::find(char, pos)`: first occurrence of `c` in `d`
at an index `>= i0`. -/
def findCharFrom (d : List Char) (c : Char) (i0 : ℕ) : Option ℕ :=
  match (d.drop i0).findIdx? (fun x => x = c) with
  | none => none
  | some k => some (i0 + k)

/-- Float range check of `GeomCache::pointValid` (lines 1071-1078); the
`float` maximum is exactly `2^128 - 2^104`. -/
def floatMaxQ : ℚ := 2 ^ 128 - 2 ^ 104

def pointValidQ (p : ℚ × ℚ) : Bool :=
  decide (p.2 ≤ floatMaxQ) && decide (-floatMaxQ ≤ p.2) &&
    decide (p.1 ≤ floatMaxQ) && decide (-floatMaxQ ≤ p.1)

def patPOINT : List Char := "\x22POINT(".toList

def patLINESTRING : List Char := "\x22LINESTRING(".toList

def patMULTILINESTRING : List Char := "\x22MULTILINESTRING(".toList

def patPOLYGON : List Char := "\x22POLYGON(".toList

def patMULTIPOLYGON : List Char := "\x22MULTIPOLYGON(".toList

/-- Model of `_dangling.rfind(pat, 0) != npos`, which is a prefix test. -/
def startsWithPat (d pat : List Char) : Bool := decide (d.take pat.length = pat)

/-- The shared component loop of the `MULTILINESTRING` / `POLYGON` /
`MULTIPOLYGON` branches (lines 620-644, 656-680, 692-717):
`while ((p = _dangling.find("(", p + 1)) != npos)`, parsing a linestring at
each found position (after the extra `((`-skip when `dp` is set, i.e. in the
`MULTIPOLYGON` branch), inserting nonempty results and writing the sentinel
mapping for an empty first component.  `pl` stands for the in-file
`parseLineString`, whose text-to-vertex work rests on the external `util`
library and is therefore a parameter; the loop advances `p` past each found
parenthesis, so `d.length + 1` fuel always suffices. -/
def multiGeomLoop (pl : List Char → ℕ → List (ℚ × ℚ)) (d : List Char)
    (area dp : Bool) : ℕ → ℕ → ℕ → PState → ℕ × PState
  | 0, _, i, s => (i, s)
  | fuel + 1, p, i, s =>
    match findCharFrom d '(' (p + 1) with
    | none => (i, s)
    | some q =>
      let q2 := if dp && decide (d.getD (q + 1) (Char.ofNat 0) = '(') then q + 1 else q
      if pl d (q2 + 1) = [] then
        multiGeomLoop pl d area dp fuel q2 (i + 1)
          (if i = 0 then appendMapping ⟨0, ID_MAX⟩ s else s)
      else
        multiGeomLoop pl d area dp fuel q2 (i + 1)
          (insertLineState (pl d (q2 + 1)) area (if i = 0 then 0 else 1) s)

/-- Row handling of `GeomCache::parse` when a `\t` or `\n` terminates the
current field (lines 556-731): the consecutive-duplicate branch first
(same text as the previous row and the previous row's last mapping was a
primary), then the five geometry-type prefix branches (with the literal
offsets 7, 12, 17, 9, 13 the code adds to the match position), then the
invalid-row sentinel.  `pp`/`pl` stand for `parsePoint`/`parseLineString`
(parameters for the same reason as in `multiGeomLoop`). -/
def processRowGeom (pp : List Char → ℕ → ℚ × ℚ)
    (pl : List Char → ℕ → List (ℚ × ℚ)) (s : PState) : PState :=
  if s.prev = s.dangling ∧ s.lastQidToId.qid = 0 then
    appendMapping ⟨0, s.lastQidToId.id⟩ s
  else if startsWithPat s.dangling patPOINT then
    if pointValidQ (pp s.dangling 7) then
      appendMapping ⟨0, s.pointsFSize⟩
        { s with points := s.points ++ [pp s.dangling 7],
                 pointsFSize := s.pointsFSize + 1,
                 curUniqueGeom := s.curUniqueGeom + 1 }
    else
      appendMapping ⟨0, ID_MAX⟩ { s with curUniqueGeom := s.curUniqueGeom + 1 }
  else if startsWithPat s.dangling patLINESTRING then
    if pl s.dangling 12 = [] then
      appendMapping ⟨0, ID_MAX⟩ { s with curUniqueGeom := s.curUniqueGeom + 1 }
    else
      insertLineState (pl s.dangling 12) false 0
        { s with curUniqueGeom := s.curUniqueGeom + 1 }
  else if startsWithPat s.dangling patMULTILINESTRING then
    if (multiGeomLoop pl s.dangling false false (s.dangling.length + 1) 17 0
        { s with curUniqueGeom := s.curUniqueGeom + 1 }).1 = 0 then
      appendMapping ⟨0, ID_MAX⟩
        (multiGeomLoop pl s.dangling false false (s.dangling.length + 1) 17 0
          { s with curUniqueGeom := s.curUniqueGeom + 1 }).2
    else
      (multiGeomLoop pl s.dangling false false (s.dangling.length + 1) 17 0
        { s with curUniqueGeom := s.curUniqueGeom + 1 }).2
  else if startsWithPat s.dangling patPOLYGON then
    if (multiGeomLoop pl s.dangling true false (s.dangling.length + 1) 9 0
        { s with curUniqueGeom := s.curUniqueGeom + 1 }).1 = 0 then
      appendMapping ⟨0, ID_MAX⟩
        (multiGeomLoop pl s.dangling true false (s.dangling.length + 1) 9 0
          { s with curUniqueGeom := s.curUniqueGeom + 1 }).2
    else
      (multiGeomLoop pl s.dangling true false (s.dangling.length + 1) 9 0
        { s with curUniqueGeom := s.curUniqueGeom + 1 }).2
  else if startsWithPat s.dangling patMULTIPOLYGON then
    if (multiGeomLoop pl s.dangling true true (s.dangling.length + 1) 13 0
        { s with curUniqueGeom := s.curUniqueGeom + 1 }).1 = 0 then
      appendMapping ⟨0, ID_MAX⟩
        (multiGeomLoop pl s.dangling true true (s.dangling.length + 1) 13 0
          { s with curUniqueGeom := s.curUniqueGeom + 1 }).2
    else
      (multiGeomLoop pl s.dangling true true (s.dangling.length + 1) 13 0
        { s with curUniqueGeom := s.curUniqueGeom + 1 }).2
  else
    appendMapping ⟨0, ID_MAX⟩ s

/-- Full row handling: the geometry work above, then `_prev = _dangling;
_dangling.clear()` (lines 744-752). -/
def processRow (pp : List Char → ℕ → ℚ × ℚ)
    (pl : List Char → ℕ → List (ℚ × ℚ)) (s : PState) : PState :=
  { processRowGeom pp pl s with prev := s.dangling, dangling := [] }

/-- One `IN_ROW` character step: process the row on `\t` / `\n`
(incrementing `_curRow` only on `\n`), otherwise append to `_dangling`. -/
def inRowStep (pp : List Char → ℕ → ℚ × ℚ)
    (pl : List Char → ℕ → List (ℚ × ℚ)) (c : Char) (s : PState) : PState :=
  if c = Char.ofNat 9 ∨ c = Char.ofNat 10 then
    if c = Char.ofNat 10 then
      { processRow pp pl s with curRow := (processRow pp pl s).curRow + 1 }
    else processRow pp pl s
  else { s with dangling := s.dangling ++ [c] }

/-- Embedding of `GeomCache::parse` (lines 544-764) on one chunk.  The
`IN_HEADER` case consumes characters up to the header newline; the C++
`switch` then falls through into the `IN_ROW` case after `c++` WITHOUT
re-checking `c < start + size`, so when the chunk ends exactly at the header
newline the code dereferences one byte past the provided buffer — that
undefined read is modelled as `none`. -/
def parseChunk (pp : List Char → ℕ → ℚ × ℚ)
    (pl : List Char → ℕ → List (ℚ × ℚ)) : PState → List Char → Option PState
  | s, [] => some s
  | s, c :: rest =>
    match s.phase with
    | .inHeader =>
      if c = Char.ofNat 10 then
        match rest with
        | [] => none
        | c2 :: rest2 =>
          parseChunk pp pl (inRowStep pp pl c2 { s with phase := .inRow }) rest2
      else parseChunk pp pl s rest
    | .inRow => parseChunk pp pl (inRowStep pp pl c s) rest

/-- The parser state at the beginning of a transfer: `IN_HEADER`, empty
buffers, zeroed counters, and `_lastQidToId = {-1, -1}` (line 919; the
`-1`s are the all-ones values of the unsigned fields). -/
def initPState : PState :=
  { phase := .inHeader, dangling := [], prev := [],
    lastQidToId := ⟨2 ^ 64 - 1, 2 ^ 32 - 1⟩,
    pointsFSize := 0, linesFSize := 0, linePointsFSize := 0, qidToIdFSize := 0,
    curUniqueGeom := 0, curRow := 0,
    points := [], linePoints := [], lines := [], qidToId := [] }

theorem getRelObjects_pair (q1 q2 g : ℕ) (hq : q1 < q2) :
    getRelObjects [⟨q1, 0⟩, ⟨q2, 1⟩] [⟨q1, g⟩, ⟨q2, g⟩] = [(g, 0), (g, 1)] := by
  show getRelObjectsGo [⟨q1, 0⟩, ⟨q2, 1⟩] [⟨q1, g⟩, ⟨q2, g⟩] 5 0 0 [] = _
  simp [getRelObjectsGo, List.getD_cons_zero, List.getD_cons_succ, hq, hq.ne, Nat.lt_irrefl]

/-- C3, amended.  If the previous row's processing ended with a primary
mapping (`qid` flag `0`), re-processing the character-identical row text
takes the consecutive-duplicate branch: it appends a mapping with the same
geometry id, stores no new geometry (all geometry stores and counters are
unchanged), and a later `getRelObjects` join therefore emits the shared GID
for both rows.  (The restriction to a primary last mapping is forced: see
the counterexample with a two-component multi-geometry.) -/
theorem C3_duplicate_primary_reuses_gid (pp : List Char → ℕ → ℚ × ℚ)
    (pl : List Char → ℕ → List (ℚ × ℚ)) (s : PState) (q1 q2 : ℕ) (hq : q1 < q2)
    (hq0 : (processRow pp pl s).lastQidToId.qid = 0) :
    (processRow pp pl { processRow pp pl s with dangling := s.dangling }).qidToId
        = (processRow pp pl s).qidToId ++ [⟨0, (processRow pp pl s).lastQidToId.id⟩]
    ∧ (processRow pp pl { processRow pp pl s with dangling := s.dangling }).lastQidToId
        = ⟨0, (processRow pp pl s).lastQidToId.id⟩
    ∧ (processRow pp pl { processRow pp pl s with dangling := s.dangling }).points
        = (processRow pp pl s).points
    ∧ (processRow pp pl { processRow pp pl s with dangling := s.dangling }).linePoints
        = (processRow pp pl s).linePoints
    ∧ (processRow pp pl { processRow pp pl s with dangling := s.dangling }).lines
        = (processRow pp pl s).lines
    ∧ (processRow pp pl { processRow pp pl s with dangling := s.dangling }).pointsFSize
        = (processRow pp pl s).pointsFSize
    ∧ (processRow pp pl { processRow pp pl s with dangling := s.dangling }).linesFSize
        = (processRow pp pl s).linesFSize
    ∧ (processRow pp pl { processRow pp pl s with dangling := s.dangling }).linePointsFSize
        = (processRow pp pl s).linePointsFSize
    ∧ getRelObjects [⟨q1, 0⟩, ⟨q2, 1⟩]
        [⟨q1, (processRow pp pl s).lastQidToId.id⟩,
         ⟨q2, (processRow pp pl s).lastQidToId.id⟩]
        = [((processRow pp pl s).lastQidToId.id, 0),
           ((processRow pp pl s).lastQidToId.id, 1)] := by
  have hgeom : processRowGeom pp pl { processRow pp pl s with dangling := s.dangling }
      = appendMapping ⟨0, (processRow pp pl s).lastQidToId.id⟩
          { processRow pp pl s with dangling := s.dangling } := by
    unfold processRowGeom
    rw [if_pos ⟨rfl, hq0⟩]
  have e1 : ∀ x : PState, (processRow pp pl x).qidToId = (processRowGeom pp pl x).qidToId :=
    fun _ => rfl
  have e2 : ∀ x : PState,
      (processRow pp pl x).lastQidToId = (processRowGeom pp pl x).lastQidToId := fun _ => rfl
  have e3 : ∀ x : PState, (processRow pp pl x).points = (processRowGeom pp pl x).points :=
    fun _ => rfl
  have e4 : ∀ x : PState,
      (processRow pp pl x).linePoints = (processRowGeom pp pl x).linePoints := fun _ => rfl
  have e5 : ∀ x : PState, (processRow pp pl x).lines = (processRowGeom pp pl x).lines :=
    fun _ => rfl
  have e6 : ∀ x : PState,
      (processRow pp pl x).pointsFSize = (processRowGeom pp pl x).pointsFSize := fun _ => rfl
  have e7 : ∀ x : PState,
      (processRow pp pl x).linesFSize = (processRowGeom pp pl x).linesFSize := fun _ => rfl
  have e8 : ∀ x : PState,
      (processRow pp pl x).linePointsFSize = (processRowGeom pp pl x).linePointsFSize :=
    fun _ => rfl
  refine ⟨?_, ?_, ?_, ?_, ?_, ?_, ?_, ?_, getRelObjects_pair q1 q2 _ hq⟩
  · rw [e1, hgeom]; rfl
  · rw [e2, hgeom]; rfl
  · rw [e3, hgeom]; rfl
  · rw [e4, hgeom]; rfl
  · rw [e5, hgeom]; rfl
  · rw [e6, hgeom]; rfl
  · rw [e7, hgeom]; rfl
  · rw [e8, hgeom]; rfl

/-- A two-polygon `MULTIPOLYGON` row literal (WKT rows start with the
opening quote of the TSV-quoted literal). -/
def mpRow : List Char := "\x22MULTIPOLYGON(((0 0,1 0,1 1)),((2 2,3 2,3 3)))".toList

/-- Constant stand-in for `parseLineString` in concrete runs: each component
parses to the same nonempty three-vertex ring (only nonemptiness and
determinism matter for GID assignment). -/
def plConst : List Char → ℕ → List (ℚ × ℚ) := fun _ _ => [(0, 0), (1, 0), (1, 1)]

/-- Constant stand-in for `parsePoint` in concrete runs. -/
def ppConst : List Char → ℕ → ℚ × ℚ := fun _ _ => (1, 2)

/-- Parser state holding the multipolygon row text ready to be processed. -/
def c3st0 : PState := { initPState with phase := .inRow, dangling := mpRow }

/-- C3, counterexample.  Two adjacent rows with character-identical
`MULTIPOLYGON` text: the first processing writes TWO mappings (flags 0 and
1), so its last mapping is a continuation (`qid = 1`); re-processing the
identical text does NOT reuse the GID — two fresh line geometries are stored
and the rows' last mappings carry different GIDs, refuting the claim for
multi-geometries. -/
theorem C3_counterexample :
    (processRow ppConst plConst c3st0).qidToId
        = [⟨0, I_OFFSET⟩, ⟨1, I_OFFSET + 1⟩]
    ∧ (processRow ppConst plConst c3st0).lastQidToId.qid = 1
    ∧ (processRow ppConst plConst
        { processRow ppConst plConst c3st0 with dangling := mpRow }).qidToId
        = [⟨0, I_OFFSET⟩, ⟨1, I_OFFSET + 1⟩, ⟨0, I_OFFSET + 2⟩, ⟨1, I_OFFSET + 3⟩]
    ∧ (processRow ppConst plConst
        { processRow ppConst plConst c3st0 with dangling := mpRow }).linesFSize = 4
    ∧ (I_OFFSET + 3 : ℕ) ≠ I_OFFSET + 1 := by
  refine ⟨by decide, by decide, by decide, by decide, by decide⟩

/-- A `POINT` row literal used by the C3 witness. -/
def ptRow : List Char := "\x22POINT(1 2)".toList

/-- Parser state holding the point row text ready to be processed. -/
def c3stPt : PState := { initPState with phase := .inRow, dangling := ptRow }

set_option maxRecDepth 4000 in
/-- Witness for C3's amended theorem: a duplicated `POINT` row (its single
mapping is a primary), with concrete backend qids 5 and 9. -/
theorem C3_duplicate_primary_reuses_gid_witness :
    ((5 : ℕ) < 9 ∧ (processRow ppConst plConst c3stPt).lastQidToId.qid = 0)
    ∧ ((processRow ppConst plConst
          { processRow ppConst plConst c3stPt with dangling := c3stPt.dangling }).qidToId
        = (processRow ppConst plConst c3stPt).qidToId
            ++ [⟨0, (processRow ppConst plConst c3stPt).lastQidToId.id⟩]
      ∧ (processRow ppConst plConst
          { processRow ppConst plConst c3stPt with dangling := c3stPt.dangling }).lastQidToId
        = ⟨0, (processRow ppConst plConst c3stPt).lastQidToId.id⟩
      ∧ (processRow ppConst plConst
          { processRow ppConst plConst c3stPt with dangling := c3stPt.dangling }).points
        = (processRow ppConst plConst c3stPt).points
      ∧ (processRow ppConst plConst
          { processRow ppConst plConst c3stPt with dangling := c3stPt.dangling }).linePoints
        = (processRow ppConst plConst c3stPt).linePoints
      ∧ (processRow ppConst plConst
          { processRow ppConst plConst c3stPt with dangling := c3stPt.dangling }).lines
        = (processRow ppConst plConst c3stPt).lines
      ∧ (processRow ppConst plConst
          { processRow ppConst plConst c3stPt with dangling := c3stPt.dangling }).pointsFSize
        = (processRow ppConst plConst c3stPt).pointsFSize
      ∧ (processRow ppConst plConst
          { processRow ppConst plConst c3stPt with dangling := c3stPt.dangling }).linesFSize
        = (processRow ppConst plConst c3stPt).linesFSize
      ∧ (processRow ppConst plConst
          { processRow ppConst plConst c3stPt with dangling := c3stPt.dangling }).linePointsFSize
        = (processRow ppConst plConst c3stPt).linePointsFSize
      ∧ getRelObjects [⟨5, 0⟩, ⟨9, 1⟩]
          [⟨5, (processRow ppConst plConst c3stPt).lastQidToId.id⟩,
           ⟨9, (processRow ppConst plConst c3stPt).lastQidToId.id⟩]
          = [((processRow ppConst plConst c3stPt).lastQidToId.id, 0),
             ((processRow ppConst plConst c3stPt).lastQidToId.id, 1)]) :=
  ⟨⟨by decide, by decide⟩,
    C3_duplicate_primary_reuses_gid ppConst plConst c3stPt 5 9 (by decide) (by decide)⟩

/-- C8.  The streaming parser is NOT restartable at every byte boundary:
when a chunk ends exactly at the header-terminating newline, the `IN_HEADER`
case advances `c` and falls through into `IN_ROW` without re-checking
`c < start + size`, reading one byte past the chunk buffer (modelled as
`none`).  Feeding the same bytes in a single call is fine, because the
genuine next byte is then inside the buffer. -/
theorem C8_header_boundary_oob :
    parseChunk ppConst plConst initPState [Char.ofNat 10] = none
    ∧ (parseChunk ppConst plConst initPState
        (Char.ofNat 10 :: Char.ofNat 120 :: Char.ofNat 10 :: [])).isSome = true
    ∧ (parseChunk ppConst plConst initPState [Char.ofNat 10]).bind
        (fun s => parseChunk ppConst plConst s (Char.ofNat 120 :: Char.ofNat 10 :: []))
      ≠ parseChunk ppConst plConst initPState
          (Char.ofNat 10 :: Char.ofNat 120 :: Char.ofNat 10 :: []) := by
  refine ⟨by decide, by decide, by decide⟩

/-- State of `GeomCache::parseIds` (lines 767-800): the byte accumulator of
the 8-byte little-endian id union, the current row, the `qidToId` table and
the running maximum qid. -/
structure IdsState where
  curByte : ℕ
  curId : List ℕ
  curRow : ℕ
  arr : List IdMapping
  maxQid : ℕ
deriving DecidableEq, Repr

/-- Little-endian value of the 8 accumulated bytes (`_curId.val`). -/
def leVal (bytes : List ℕ) : ℕ := bytes.foldr (fun b acc => b + 256 * acc) 0

/-- The `size_t` wrap of `n - 1` in `_qidToId.size() - 1` (line 793): for an
empty table this is `2^64 - 1`, making the while-guard pass and the
`_qidToId[_curRow + 1]` read go out of bounds. -/
def subOne64 (n : ℕ) : ℕ := (n + (2 ^ 64 - 1)) % 2 ^ 64

/-- The continuation-filling `while` loop of `parseIds` (lines 793-795):
while `_curRow < _qidToId.size() - 1` and the next entry is flagged as a
continuation (`qid == 1`), advance and overwrite its qid with the current
value.  Out-of-bounds reads (possible when the table is empty, via the
`size_t` wrap) and fuel exhaustion (unreachable with `arr.length + 1` fuel)
are `none`. -/
def fillCont (val : ℕ) : ℕ → ℕ → List IdMapping → Option (ℕ × List IdMapping)
  | 0, _, _ => none
  | fuel + 1, r, arr =>
    if r < subOne64 arr.length then
      if r + 1 < arr.length then
        if (arr.getD (r + 1) ⟨0, 0⟩).qid = 1 then
          fillCont val fuel (r + 1) (arr.set (r + 1) ⟨val, (arr.getD (r + 1) ⟨0, 0⟩).id⟩)
        else some (r, arr)
      else none
    else some (r, arr)

/-- Handling of one completed 8-byte id (lines 772-797): write the value
into the current row if it is in range and still flagged primary, updating
`_maxQid`; otherwise the out-of-sync warning branch, whose log line itself
reads `_qidToId[_curRow]` (hence `none` when the row is out of range); then
the continuation loop; then `_curRow++`. -/
def oneId (val r : ℕ) (arr : List IdMapping) (maxQid : ℕ) :
    Option (ℕ × List IdMapping × ℕ) :=
  if r < arr.length ∧ (arr.getD r ⟨0, 0⟩).qid = 0 then
    (fillCont val (arr.length + 1) r
        (arr.set r ⟨val, (arr.getD r ⟨0, 0⟩).id⟩)).map
      (fun p => (p.1 + 1, p.2, max maxQid val))
  else
    if r < arr.length then
      (fillCont val (arr.length + 1) r arr).map (fun p => (p.1 + 1, p.2, maxQid))
    else none

/-- Embedding of `GeomCache::parseIds` on a byte stream: accumulate bytes
into the id union, and on every eighth byte run the completed-id handling. -/
def parseIdsBytes (st : IdsState) : List ℕ → Option IdsState
  | [] => some st
  | b :: rest =>
    if (st.curByte + 1) % 8 = 0 then
      match oneId (leVal (st.curId ++ [b])) st.curRow st.arr st.maxQid with
      | none => none
      | some (r2, arr2, mq) => parseIdsBytes ⟨0, [], r2, arr2, mq⟩ rest
    else
      parseIdsBytes
        { st with curByte := (st.curByte + 1) % 8, curId := st.curId ++ [b] } rest

/-- The `parseIds` state right after the `requestIds` reset (lines
1004-1008) with the `qidToId` table produced by the WKT pass. -/
def initIdsState (base : List IdMapping) : IdsState := ⟨0, [], 0, base, 0⟩

/-- The qid-comparing `IdMapping` order used by `std::sort` and
`std::lower_bound` (operator< of the missing Misc.h, modelled from spec
section 3.3: ordering by `qid`). -/
def qidLe (a b : IdMapping) : Prop := a.qid ≤ b.qid

instance : DecidableRel qidLe := fun a b => inferInstanceAs (Decidable (a.qid ≤ b.qid))

instance : IsTotal IdMapping qidLe := ⟨fun a b => Nat.le_total a.qid b.qid⟩

instance : IsTrans IdMapping qidLe := ⟨fun _ _ _ h h2 => Nat.le_trans h h2⟩

/-- Model of the `std::sort(_qidToId.begin(), _qidToId.end())` step of
`requestIds` (line 1044): a permutation of the table ordered by the
`IdMapping` comparison.  `std::sort` is a standard-library collaborator; it
is modelled by a concrete sort producing the same specification (a sorted
permutation — equal-qid entries may appear in either order under the
unstable `std::sort`, and the theorems below only use order and
multiset content). -/
def sortQidToId (l : List IdMapping) : List IdMapping := List.insertionSort qidLe l

/-- C4, amended.  After `requestIds`, the table is sorted by qid in
NON-decreasing order (a permutation of the pre-sort table).  Strictness
fails in general: multi-geometry continuations share their primary's qid. -/
theorem C4_sort_nondecreasing (l : List IdMapping) :
    List.Sorted qidLe (sortQidToId l) ∧ List.Perm (sortQidToId l) l :=
  ⟨List.sorted_insertionSort qidLe l, List.perm_insertionSort qidLe l⟩

/-- C4, counterexample.  Run the binary-id pass on a table holding one
primary and one continuation (as written for a two-part multi-geometry) and
an 8-byte stream carrying the qid 7: both entries end up with qid 7, the
sorted table keeps the duplicate pair, and strict sortedness
(`qidToId[i].qid < qidToId[j].qid` for `i < j`) fails. -/
theorem C4_counterexample :
    (parseIdsBytes (initIdsState [⟨0, 10⟩, ⟨1, 11⟩]) [7, 0, 0, 0, 0, 0, 0, 0]).map
        (fun st => sortQidToId st.arr)
      = some [⟨7, 10⟩, ⟨7, 11⟩]
    ∧ ¬ (([⟨7, 10⟩, ⟨7, 11⟩] : List IdMapping).Pairwise fun a b => a.qid < b.qid) := by
  refine ⟨by decide, by decide⟩

/-- C9, counterexample.  The claim's precondition (nonempty table, at most
as many 8-byte ids as table entries) does not keep `parseIds` in bounds: a
table with one primary and one continuation receives two ids (16 bytes,
equal to the table length); the first id consumes both entries through the
continuation loop, so the second id finds `_curRow = 2` out of range and the
out-of-sync warning branch reads `_qidToId[2]` past the end (modelled as
`none`). -/
theorem C9_counterexample :
    parseIdsBytes (initIdsState [⟨0, 10⟩, ⟨1, 11⟩])
        [7, 0, 0, 0, 0, 0, 0, 0, 7, 0, 0, 0, 0, 0, 0, 0] = none
    ∧ ([7, 0, 0, 0, 0, 0, 0, 0, 7, 0, 0, 0, 0, 0, 0, 0] : List ℕ).length / 8
        ≤ ([⟨0, 10⟩, ⟨1, 11⟩] : List IdMapping).length
    ∧ 0 < ([⟨0, 10⟩, ⟨1, 11⟩] : List IdMapping).length := by
  refine ⟨by decide, by decide, by decide⟩

/-- Number of non-continuation entries (qid not 1) at table indices `>= r`. -/
def countNon1 (base : List IdMapping) (r : ℕ) : ℕ :=
  ((base.drop r).filter fun m => decide (m.qid ≠ 1)).length

theorem countNon1_pos_lt {base : List IdMapping} {r : ℕ} (h : 0 < countNon1 base r) :
    r < base.length := by
  by_contra hc
  push_neg at hc
  unfold countNon1 at h
  rw [List.drop_eq_nil_of_le hc] at h
  simp at h

theorem getD_eq_getElem {l : List IdMapping} {n : ℕ} (h : n < l.length) :
    l.getD n ⟨0, 0⟩ = l[n] := by
  simp [List.getD, List.getElem?_eq_getElem h]

theorem countNon1_step {base : List IdMapping} {r : ℕ} (h : r < base.length) :
    countNon1 base r
      = (if (base.getD r ⟨0, 0⟩).qid = 1 then 0 else 1) + countNon1 base (r + 1) := by
  unfold countNon1
  rw [List.drop_eq_getElem_cons h, List.filter_cons, getD_eq_getElem h]
  by_cases hq : base[r].qid = 1
  · simp [hq]
  · simp [hq]
    omega

theorem getD_set_ne {l : List IdMapping} {m n : ℕ} {a : IdMapping} (h : m ≠ n) :
    (l.set m a).getD n ⟨0, 0⟩ = l.getD n ⟨0, 0⟩ := by
  simp [List.getD, List.getElem?_set_ne h]

theorem fillCont_safe (val : ℕ) (base : List IdMapping) (hlt : base.length < 2 ^ 64)
    (fuel : ℕ) :
    ∀ r arr, arr.length = base.length → r < base.length →
      (∀ p, r + 1 ≤ p → p < base.length → arr.getD p ⟨0, 0⟩ = base.getD p ⟨0, 0⟩) →
      base.length - r ≤ fuel →
      ∃ r2 arr2, fillCont val fuel r arr = some (r2, arr2)
        ∧ arr2.length = base.length ∧ r ≤ r2 ∧ r2 < base.length
        ∧ (∀ p, r2 + 1 ≤ p → p < base.length → arr2.getD p ⟨0, 0⟩ = base.getD p ⟨0, 0⟩)
        ∧ countNon1 base (r2 + 1) = countNon1 base (r + 1) := by
  induction fuel with
  | zero =>
    intro r arr hlen hr _ hfuel
    omega
  | succ fuel ih =>
    intro r arr hlen hr hag hfuel
    have hsub : subOne64 arr.length = base.length - 1 := by
      unfold subOne64
      omega
    rw [fillCont, hsub]
    by_cases hguard : r < base.length - 1
    · rw [if_pos hguard, if_pos (show r + 1 < arr.length by omega)]
      by_cases hq : (arr.getD (r + 1) ⟨0, 0⟩).qid = 1
      · rw [if_pos hq]
        have hbase1 : (base.getD (r + 1) ⟨0, 0⟩).qid = 1 := by
          rw [← hag (r + 1) le_rfl (by omega)]
          exact hq
        obtain ⟨r2, arr2, hfc, hl2, hle2, hlt2, hag2, hcnt⟩ :=
          ih (r + 1) (arr.set (r + 1) ⟨val, (arr.getD (r + 1) ⟨0, 0⟩).id⟩)
            (by simp [hlen]) (by omega)
            (fun p hp1 hp2 => by
              rw [getD_set_ne (show r + 1 ≠ p by omega)]
              exact hag p (by omega) hp2)
            (by omega)
        refine ⟨r2, arr2, hfc, hl2, by omega, hlt2, hag2, ?_⟩
        rw [hcnt, countNon1_step (show r + 1 < base.length by omega), hbase1]
        simp
      · rw [if_neg hq]
        exact ⟨r, arr, rfl, hlen, le_rfl, hr, hag, rfl⟩
    · rw [if_neg hguard]
      exact ⟨r, arr, rfl, hlen, le_rfl, hr, hag, rfl⟩

theorem oneId_safe (val : ℕ) (base : List IdMapping) (hlt : base.length < 2 ^ 64)
    (r : ℕ) (arr : List IdMapping) (mq : ℕ)
    (hlen : arr.length = base.length) (hr : r < base.length)
    (hag : ∀ p, r ≤ p → p < base.length → arr.getD p ⟨0, 0⟩ = base.getD p ⟨0, 0⟩) :
    ∃ rr arr2 mq2, oneId val r arr mq = some (rr, arr2, mq2)
      ∧ arr2.length = base.length ∧ r < rr
      ∧ (∀ p, rr ≤ p → p < base.length → arr2.getD p ⟨0, 0⟩ = base.getD p ⟨0, 0⟩)
      ∧ countNon1 base r ≤ countNon1 base rr + 1 := by
  unfold oneId
  by_cases hc : r < arr.length ∧ (arr.getD r ⟨0, 0⟩).qid = 0
  · rw [if_pos hc]
    obtain ⟨r2, arr2, hfc, hl2, hle2, hlt2, hag2, hcnt⟩ :=
      fillCont_safe val base hlt (arr.length + 1) r
        (arr.set r ⟨val, (arr.getD r ⟨0, 0⟩).id⟩)
        (by simp [hlen]) hr
        (fun p hp1 hp2 => by
          rw [getD_set_ne (show r ≠ p by omega)]
          exact hag p (by omega) hp2)
        (by omega)
    refine ⟨r2 + 1, arr2, max mq val, by rw [hfc]; rfl, hl2, by omega, hag2, ?_⟩
    rw [countNon1_step hr, ← hcnt]
    split <;> omega
  · rw [if_neg hc]
    rw [if_pos (show r < arr.length by omega)]
    obtain ⟨r2, arr2, hfc, hl2, hle2, hlt2, hag2, hcnt⟩ :=
      fillCont_safe val base hlt (arr.length + 1) r arr hlen hr
        (fun p hp1 hp2 => hag p (by omega) hp2)
        (by omega)
    refine ⟨r2 + 1, arr2, mq, by rw [hfc]; rfl, hl2, by omega, hag2, ?_⟩
    rw [countNon1_step hr, ← hcnt]
    split <;> omega

theorem parseIds_safe_aux (base : List IdMapping) (hlt : base.length < 2 ^ 64)
    (bytes : List ℕ) :
    ∀ st : IdsState, st.arr.length = base.length → st.curByte < 8 →
      (∀ p, st.curRow ≤ p → p < base.length →
        st.arr.getD p ⟨0, 0⟩ = base.getD p ⟨0, 0⟩) →
      (st.curByte + bytes.length) / 8 ≤ countNon1 base st.curRow →
      (parseIdsBytes st bytes).isSome = true := by
  induction bytes with
  | nil =>
    intro st _ _ _ _
    rfl
  | cons b rest ih =>
    intro st hlen hbyte hag hcount
    rw [parseIdsBytes]
    by_cases hmod : (st.curByte + 1) % 8 = 0
    · rw [if_pos hmod]
      have hc7 : st.curByte = 7 := by omega
      have hcount1 : 1 ≤ countNon1 base st.curRow := by
        have h8 : (st.curByte + (b :: rest).length) / 8 ≥ 1 := by
          simp only [List.length_cons, hc7]
          omega
        omega
      have hrow : st.curRow < base.length := countNon1_pos_lt (by omega)
      obtain ⟨rr, arr2, mq2, hone, hl2, hlt3, hag2, hcnt⟩ :=
        oneId_safe (leVal (st.curId ++ [b])) base hlt st.curRow st.arr st.maxQid
          hlen hrow hag
      rw [hone]
      refine ih ⟨0, [], rr, arr2, mq2⟩ hl2 (by norm_num) hag2 ?_
      have hlen8 : (st.curByte + (b :: rest).length) / 8 = 1 + rest.length / 8 := by
        simp only [List.length_cons, hc7]
        omega
      show (0 + rest.length) / 8 ≤ countNon1 base rr
      omega
    · rw [if_neg hmod]
      have hb7 : (st.curByte + 1) % 8 = st.curByte + 1 := by omega
      refine ih _ (by simpa using hlen) (by simp only [hb7]; omega)
        (fun p hp1 hp2 => hag p hp1 hp2) ?_
      show ((st.curByte + 1) % 8 + rest.length) / 8 ≤ countNon1 base st.curRow
      rw [hb7]
      simp only [List.length_cons] at hcount
      omega

/-- C9, amended.  `parseIds` performs only in-bounds reads and writes of
`qidToId` provided the table is nonempty (and of `size_t` size) and the
stream carries at most as many 8-byte identifiers as the table has
NON-CONTINUATION entries (entries with qid flag not 1) — counting all
entries is not enough, because the continuation loop consumes extra slots
(see the counterexample). -/
theorem C9_parseIds_inbounds (base : List IdMapping) (bytes : List ℕ)
    (_hne : 0 < base.length) (hsz : base.length < 2 ^ 64)
    (hcount : bytes.length / 8 ≤ (base.filter fun m => decide (m.qid ≠ 1)).length) :
    (parseIdsBytes (initIdsState base) bytes).isSome = true := by
  refine parseIds_safe_aux base hsz bytes (initIdsState base) rfl
    (by show (0 : ℕ) < 8; norm_num) (fun p _ _ => rfl) ?_
  show (0 + bytes.length) / 8 ≤ countNon1 base 0
  unfold countNon1
  simpa using hcount

/-- Witness for C9's amended theorem: a one-entry primary table receiving
one 8-byte identifier. -/
theorem C9_parseIds_inbounds_witness :
    (0 < ([⟨0, 5⟩] : List IdMapping).length
      ∧ ([⟨0, 5⟩] : List IdMapping).length < 2 ^ 64
      ∧ ([3, 0, 0, 0, 0, 0, 0, 0] : List ℕ).length / 8
          ≤ (([⟨0, 5⟩] : List IdMapping).filter fun m => decide (m.qid ≠ 1)).length)
    ∧ (parseIdsBytes (initIdsState [⟨0, 5⟩]) [3, 0, 0, 0, 0, 0, 0, 0]).isSome = true :=
  ⟨⟨by decide, by decide, by decide⟩,
    C9_parseIds_inbounds [⟨0, 5⟩] [3, 0, 0, 0, 0, 0, 0, 0]
      (by decide) (by decide) (by decide)⟩

/-- The four in-memory vectors of the geometry cache that
`serializeToDisk` / `fromDisk` persist. -/
structure CacheState where
  points : List (ℚ × ℚ)
  linePoints : List (ℤ × ℤ)
  lines : List ℕ
  qidToId : List IdMapping
deriving DecidableEq, Repr

/-- One fixed-size binary record of the cache file: a `size_t` count, an
`FPoint`, a `Point<int16_t>`, a `size_t` line offset, or an `IdMapping`.
The byte file is a concatenation of such records; on one machine the same
struct layout is used by writer and reader, so the typed record stream is a
faithful image of the byte stream. -/
inductive FileTok where
  | num (n : ℕ)
  | fpoint (p : ℚ × ℚ)
  | i16pt (p : ℤ × ℤ)
  | offset (n : ℕ)
  | idmap (m : IdMapping)
deriving DecidableEq, Repr

/-- Embedding of `GeomCache::serializeToDisk` (lines 1306-1329): each of the
four vectors written as its length followed by its elements, in the order
points, linePoints, lines, qidToId. -/
def serializeToDisk (st : CacheState) : List FileTok :=
  FileTok.num st.points.length :: st.points.map .fpoint
    ++ FileTok.num st.linePoints.length :: st.linePoints.map .i16pt
    ++ FileTok.num st.lines.length :: st.lines.map .offset
    ++ FileTok.num st.qidToId.length :: st.qidToId.map .idmap

def readNum : List FileTok → Option (ℕ × List FileTok)
  | .num n :: r => some (n, r)
  | _ => none

/-- Read `n` records through the extractor `ex`, as the C++ `f.read` of
`n * sizeof(T)` bytes into a resized vector does. -/
def readN (ex : FileTok → Option β) : ℕ → List FileTok → Option (List β × List FileTok)
  | 0, f => some ([], f)
  | k + 1, t :: r =>
    match ex t with
    | some v =>
      match readN ex k r with
      | some (l, rest) => some (v :: l, rest)
      | none => none
    | none => none
  | _ + 1, [] => none

def exFpoint : FileTok → Option (ℚ × ℚ)
  | .fpoint p => some p
  | _ => none

def exI16pt : FileTok → Option (ℤ × ℤ)
  | .i16pt p => some p
  | _ => none

def exOffset : FileTok → Option ℕ
  | .offset n => some n
  | _ => none

def exIdmap : FileTok → Option IdMapping
  | .idmap m => some m
  | _ => none

/-- Embedding of `GeomCache::fromDisk` (lines 1276-1303): read a count and
that many records for each of the four vectors in order; `none` models a
malformed file (short read / wrong record kind). -/
def fromDisk (f : List FileTok) : Option CacheState :=
  (readNum f).bind fun a =>
  (readN exFpoint a.1 a.2).bind fun b =>
  (readNum b.2).bind fun c =>
  (readN exI16pt c.1 c.2).bind fun d =>
  (readNum d.2).bind fun e =>
  (readN exOffset e.1 e.2).bind fun g =>
  (readNum g.2).bind fun h =>
  (readN exIdmap h.1 h.2).bind fun i =>
  some ⟨b.1, d.1, g.1, i.1⟩

theorem readN_map {β : Type} (ex : FileTok → Option β) (mk : β → FileTok)
    (hex : ∀ x, ex (mk x) = some x) (l : List β) (rest : List FileTok) :
    readN ex l.length (l.map mk ++ rest) = some (l, rest) := by
  induction l with
  | nil => rfl
  | cons x t ih =>
    show readN ex (t.length + 1) (mk x :: (t.map mk ++ rest)) = _
    rw [readN, hex x, ih]

/-- C7.  Serialising the four cache vectors and reading the file back
reproduces them exactly, record for record. -/
theorem C7_serialize_fromDisk_roundtrip (st : CacheState) :
    fromDisk (serializeToDisk st) = some st := by
  unfold fromDisk serializeToDisk
  simp only [List.cons_append, List.append_assoc]
  rw [show ∀ a (r : List FileTok), readNum (.num a :: r) = some (a, r) from fun _ _ => rfl]
  simp only [Option.bind_eq_bind, Option.some_bind]
  rw [readN_map exFpoint .fpoint (fun _ => rfl)]
  simp only [Option.some_bind]
  rw [show ∀ a (r : List FileTok), readNum (.num a :: r) = some (a, r) from fun _ _ => rfl]
  simp only [Option.some_bind]
  rw [readN_map exI16pt .i16pt (fun _ => rfl)]
  simp only [Option.some_bind]
  rw [show ∀ a (r : List FileTok), readNum (.num a :: r) = some (a, r) from fun _ _ => rfl]
  simp only [Option.some_bind]
  rw [readN_map exOffset .offset (fun _ => rfl)]
  simp only [Option.some_bind]
  rw [show ∀ a (r : List FileTok), readNum (.num a :: r) = some (a, r) from fun _ _ => rfl]
  simp only [Option.some_bind]
  rw [show st.qidToId.map FileTok.idmap = st.qidToId.map FileTok.idmap ++ [] from
    (List.append_nil _).symm]
  rw [readN_map exIdmap .idmap (fun _ => rfl)]
  rfl

/-- ASCII model of the ECMAScript `\s` class used by the query-rewrite
regex. -/
def isSpaceCh (c : Char) : Bool :=
  c = ' ' || c = Char.ofNat 9 || c = Char.ofNat 10 ||
    c = Char.ofNat 11 || c = Char.ofNat 12 || c = Char.ofNat 13

/-- The `[A-Z0-9_\-+]` class of the projection-variable regex under the
`icase` flag (so both letter cases match). -/
def isVarChar (c : Char) : Bool :=
  (decide ('A' ≤ c) && decide (c ≤ 'Z')) || (decide ('a' ≤ c) && decide (c ≤ 'z')) ||
    (decide ('0' ≤ c) && decide (c ≤ '9')) || c = '_' || c = '-' || c = '+'

/-- Case-insensitive literal match: consume the lowercase pattern `p` from
the head of `s`, returning the remainder. -/
def matchLit : List Char → List Char → Option (List Char)
  | [], s => some s
  | _ :: _, [] => none
  | p :: pt, c :: ct => if c.toLower = p then matchLit pt ct else none

/-- The `(\?[A-Z0-9_\-+]*\s*)+` loop: consume groups while the input starts
with `?`, remembering the last group's text (ECMAScript semantics: `$1`
holds the final repetition).  Each group consumes at least the `?`, so
`input length + 1` fuel always suffices. -/
def groupLoop : ℕ → List Char → List Char → List Char × List Char
  | 0, last, s => (last, s)
  | fuel + 1, last, s =>
    match s with
    | '?' :: t =>
      groupLoop fuel
        ('?' :: (t.takeWhile isVarChar ++ (t.dropWhile isVarChar).takeWhile isSpaceCh))
        ((t.dropWhile isVarChar).dropWhile isSpaceCh)
    | _ => (last, s)

/-- Greedy matcher for the rewrite regex
`select\s*(\?[A-Z0-9_\-+]*\s*)+\s*where\s*\{` (icase) at the head of the
input, returning the last group and the remainder after the brace.  The
model is greedy without backtracking, which agrees with the ECMAScript
semantics whenever the last projection variable and the `where` keyword are
separated by whitespace (as in every query below). -/
def matchSelect (s : List Char) : Option (List Char × List Char) :=
  (matchLit "select".toList s).bind fun s1 =>
  match s1.dropWhile isSpaceCh with
  | '?' :: t =>
    match groupLoop (t.length + 2) [] ('?' :: t) with
    | (g, s3) =>
      (matchLit "where".toList (s3.dropWhile isSpaceCh)).bind fun s5 =>
      match s5.dropWhile isSpaceCh with
      | c :: rest => if c = Char.ofNat 123 then some (g, rest) else none
      | [] => none
  | _ => none

/-- Model of `std::regex_replace` with the replacement `SELECT $1 WHERE {`:
scan left to right, replacing EVERY non-overlapping match and continuing
after each replacement (`std::regex_replace` replaces all matches by
default).  Every step consumes at least one input character. -/
def replaceSelects : ℕ → List Char → List Char
  | 0, s => s
  | fuel + 1, s =>
    match matchSelect s with
    | some (g, rest) =>
      "SELECT ".toList ++ g ++ " WHERE ".toList ++ [Char.ofNat 123]
        ++ replaceSelects fuel rest
    | none =>
      match s with
      | [] => []
      | c :: t => c :: replaceSelects fuel t

def toLowerL (s : List Char) : List Char := s.map Char.toLower

/-- Substring test, the model of `std::string::find(pat) != npos`. -/
def containsSub (pat s : List Char) : Bool :=
  (List.range (s.length + 1)).any fun k => decide ((s.drop k).take pat.length = pat)

/-- Embedding of `Requestor::prepQuery` (lines 277-288): rewrite the
projection(s), then append the maximal LIMIT iff the lowercased REWRITTEN
query does not contain the substring `limit`. -/
def prepQuery (q : List Char) : List Char :=
  if containsSub "limit".toList (toLowerL (replaceSelects (q.length + 1) q)) then
    replaceSelects (q.length + 1) q
  else
    replaceSelects (q.length + 1) q ++ " LIMIT 18446744073709551615".toList

theorem containsSub_suffix {pat b : List Char} (h : containsSub pat b = true)
    (a : List Char) : containsSub pat (a ++ b) = true := by
  unfold containsSub at h ⊢
  rw [List.any_eq_true] at h ⊢
  obtain ⟨k, hk, hdec⟩ := h
  refine ⟨a.length + k, ?_, ?_⟩
  · rw [List.mem_range] at hk ⊢
    rw [List.length_append]
    omega
  · rw [List.drop_append]
    exact hdec

/-- C6, counterexample.  `std::regex_replace` rewrites EVERY occurrence of
the projection pattern, not only the first: in a query with a nested
sub-select both occurrences come out rewritten, contradicting the claim's
"only the first" (second conjunct: the code's output differs from the
first-only rewrite the claim predicts).  And the LIMIT test is a substring
search on the rewritten text, not a LIMIT-clause test: a query whose only
`limit` is the variable `?limit` (no LIMIT clause) gets NO maximal LIMIT
appended. -/
theorem C6_counterexample :
    prepQuery "select ?a ?b where \x7b select ?c where \x7b \x7d \x7d".toList
      = "SELECT ?b  WHERE \x7b SELECT ?c  WHERE \x7b \x7d \x7d LIMIT 18446744073709551615".toList
    ∧ "SELECT ?b  WHERE \x7b SELECT ?c  WHERE \x7b \x7d \x7d LIMIT 18446744073709551615".toList
      ≠ "SELECT ?b  WHERE \x7b select ?c where \x7b \x7d \x7d LIMIT 18446744073709551615".toList
    ∧ prepQuery "select ?limit where \x7b ?s ?p ?limit \x7d".toList
      = "SELECT ?limit  WHERE \x7b ?s ?p ?limit \x7d".toList
    ∧ ¬ (" LIMIT 18446744073709551615".toList <:+
          prepQuery "select ?limit where \x7b ?s ?p ?limit \x7d".toList) := by
  refine ⟨by decide, by decide, by decide, by decide⟩

/-- C6, amended.  `prepQuery` rewrites EVERY case-insensitive occurrence of
the outer-select pattern (keeping only the last projection variable of
each), and appends the maximal LIMIT iff the rewritten query does not
contain the case-insensitive SUBSTRING `limit` (not: iff it has no LIMIT
clause).  Consequently the result always contains the substring `limit`;
the two concrete conjuncts exhibit the every-occurrence rewrite and the
substring (non-clause) test. -/
theorem C6_prepQuery_spec :
    (∀ q : List Char, containsSub "limit".toList (toLowerL (prepQuery q)) = true)
    ∧ prepQuery "select ?a ?b where \x7b select ?c where \x7b \x7d \x7d".toList
      = "SELECT ?b  WHERE \x7b SELECT ?c  WHERE \x7b \x7d \x7d LIMIT 18446744073709551615".toList
    ∧ prepQuery "select ?limit where \x7b ?s ?p ?limit \x7d".toList
      = "SELECT ?limit  WHERE \x7b ?s ?p ?limit \x7d".toList := by
  refine ⟨?_, by decide, by decide⟩
  intro q
  unfold prepQuery
  by_cases h : containsSub "limit".toList
      (toLowerL (replaceSelects (q.length + 1) q)) = true
  · rw [if_pos h]
    exact h
  · rw [if_neg h]
    unfold toLowerL
    rw [List.map_append]
    exact containsSub_suffix (by decide) _

/-- Accessor `getPoints()[gid]` of the cache. -/
def cacheGetPoint (c : CacheState) (gid : ℕ) : ℚ × ℚ := c.points.getD gid (0, 0)

/-- Modelled from the spec (section 3.3): `getLine(lid)` is the start offset
`lines[lid]` and `getLineEnd(lid)` is `lines[lid+1]` (or the line-point
count for the last line); the slice of the global entry stream between them
is the line's entries (accessors live in the missing GeomCache header). -/
def cacheLineSlice (c : CacheState) (lid : ℕ) : List (ℤ × ℤ) :=
  (c.linePoints.take
    (if lid + 1 < c.lines.length then c.lines.getD (lid + 1) 0
     else c.linePoints.length)).drop (c.lines.getD lid 0)

/-- The bounding box `getLineBBox(lid)` reads from the global entry stream
starting at the line's start offset (it may peek past the line's own
entries, so the slice extends to the end of the stream). -/
def cacheLineBBox (c : CacheState) (lid : ℕ) : Option ((ℤ × ℤ) × (ℤ × ℤ)) :=
  getLineBBox (c.linePoints.drop (c.lines.getD lid 0))

/-- Grid payloads added for object `i` by the point section (lines 141-162):
points only, in their single cell. -/
def addsP (c : CacheState) (objs : List (ℕ × ℕ)) (i : ℕ) : List ((ℚ × ℚ) × ℕ) :=
  if (objs.getD i (0, 0)).1 < I_OFFSET then
    [(cacheGetPoint c (objs.getD i (0, 0)).1, i)]
  else []

/-- Grid payloads added for object `i` by the line-bbox section
(lines 164-186). -/
def addsL (c : CacheState) (objs : List (ℕ × ℕ)) (i : ℕ) :
    List (Option ((ℤ × ℤ) × (ℤ × ℤ)) × ℕ) :=
  if I_OFFSET ≤ (objs.getD i (0, 0)).1 ∧ (objs.getD i (0, 0)).1 < ID_MAX then
    [(cacheLineBBox c ((objs.getD i (0, 0)).1 - I_OFFSET), i)]
  else []

/-- The sub-cell walk of the line-pixel section (lines 188-253): decode the
entry stream, skip the two stored bounding box points, and add a
`(cell, sub-cell)` record for the first vertex and for every vertex whose
sub-cell differs from the previous one.  The cell / sub-cell computation is
float math of the missing Grid header and is the parameter `subcell`. -/
def lpWalkGo (subcell : (ℤ × ℤ) → (ℕ × ℕ) × (ℕ × ℕ)) :
    List (ℤ × ℤ) → (ℤ × ℤ) → ℕ → (ℕ × ℕ) → List ((ℕ × ℕ) × (ℕ × ℕ))
  | [], _, _, _ => []
  | e :: t, main, gi, last =>
    if isMCoord e.1 then lpWalkGo subcell t (rmCoord e.1, rmCoord e.2) gi last
    else if gi + 1 < 3 then lpWalkGo subcell t main (gi + 1) last
    else
      if gi + 1 = 3 ∨ (subcell (main.1 * M_COORD_GRANULARITY + e.1,
          main.2 * M_COORD_GRANULARITY + e.2)).2 ≠ last then
        subcell (main.1 * M_COORD_GRANULARITY + e.1, main.2 * M_COORD_GRANULARITY + e.2)
          :: lpWalkGo subcell t main (gi + 1)
              (subcell (main.1 * M_COORD_GRANULARITY + e.1,
                main.2 * M_COORD_GRANULARITY + e.2)).2
      else lpWalkGo subcell t main (gi + 1) last

/-- Grid payloads added for object `i` by the line-pixel section. -/
def addsLP (subcell : (ℤ × ℤ) → (ℕ × ℕ) × (ℕ × ℕ)) (c : CacheState)
    (objs : List (ℕ × ℕ)) (i : ℕ) : List ((ℕ × ℕ) × (ℕ × ℕ)) :=
  if I_OFFSET ≤ (objs.getD i (0, 0)).1 ∧ (objs.getD i (0, 0)).1 < ID_MAX then
    lpWalkGo subcell (cacheLineSlice c ((objs.getD i (0, 0)).1 - I_OFFSET)) (0, 0) 0 (0, 0)
  else []

/-- One parallel section of `Requestor::request`: iterate the object list,
appending each object's grid payloads, and every 100000 objects consult the
memory guard (`checkMem(1, _maxMemory)`, a Misc.h collaborator modelled as
the oracle `ok`); on a breach the section records the exception and breaks,
leaving the grid partially populated. -/
def popGo (adds : ℕ → List β) (ok : ℕ → Bool) :
    List ℕ → ℕ → List β → List β × Bool
  | [], _, acc => (acc, true)
  | idx :: rest, i, acc =>
    if (i + 1) % 100000 = 0 ∧ ok (i + 1) = false then (acc ++ adds idx, false)
    else popGo adds ok rest (i + 1) (acc ++ adds idx)

def populateSection (adds : ℕ → List β) (n : ℕ) (ok : ℕ → Bool) : List β × Bool :=
  popGo adds ok (List.range n) 0 []

/-- The grid contents after an uninterrupted pass over all objects. -/
def fullAdds (adds : ℕ → List β) (n : ℕ) : List β :=
  (List.range n).foldl (fun acc i => acc ++ adds i) []

/-- Per-request inputs of `Requestor::request`: the query, the shared cache,
the backend's binary-id response for this query, and the outcomes of the
memory-budget checks (`checkMem` lives in the missing Misc.h and depends on
process-wide state, so it is an oracle), plus the sub-cell float math of the
missing Grid header. -/
structure ReqInputs where
  q : List Char
  cache : CacheState
  backendIds : List IdMapping
  memGridP : Bool
  memGridL : Bool
  secP : ℕ → Bool
  secL : ℕ → Bool
  secLP : ℕ → Bool
  subcell : (ℤ × ℤ) → (ℕ × ℕ) × (ℕ × ℕ)

/-- The requestor state the claims talk about: query, ready flag, objects
vector and the three grids (each grid as the list of its added payloads). -/
structure ReqState where
  query : List Char
  ready : Bool
  objects : List (ℕ × ℕ)
  pgrid : List ((ℚ × ℚ) × ℕ)
  lgrid : List (Option ((ℤ × ℤ) × (ℤ × ℤ)) × ℕ)
  lpgrid : List ((ℕ × ℕ) × (ℕ × ℕ))
deriving DecidableEq

/-- Embedding of `Requestor::request` (lines 24-261).  There is NO ready
check and no early return: the query is stored, `_ready` is set false, the
object list is cleared and recomputed from the (sorted) backend response
joined against the cache, the grid memory is checked (on failure the
exception leaves the OLD grids in place), the three grids are rebuilt by
the three sections, a section failure is rethrown after the join, and only
then is `_ready` set.  The second component records whether an exception
escaped. -/
def requestRun (inp : ReqInputs) (s : ReqState) : ReqState × Bool :=
  if inp.memGridP = false ∨ inp.memGridL = false then
    ({ s with
        query := inp.q
        ready := false
        objects := getRelObjects (sortQidToId inp.backendIds) inp.cache.qidToId }, true)
  else
    if (populateSection (addsP inp.cache
          (getRelObjects (sortQidToId inp.backendIds) inp.cache.qidToId))
          (getRelObjects (sortQidToId inp.backendIds) inp.cache.qidToId).length
          inp.secP).2 = false
        ∨ (populateSection (addsL inp.cache
            (getRelObjects (sortQidToId inp.backendIds) inp.cache.qidToId))
            (getRelObjects (sortQidToId inp.backendIds) inp.cache.qidToId).length
            inp.secL).2 = false
        ∨ (populateSection (addsLP inp.subcell inp.cache
            (getRelObjects (sortQidToId inp.backendIds) inp.cache.qidToId))
            (getRelObjects (sortQidToId inp.backendIds) inp.cache.qidToId).length
            inp.secLP).2 = false then
      ({ query := inp.q
         ready := false
         objects := getRelObjects (sortQidToId inp.backendIds) inp.cache.qidToId
         pgrid := (populateSection (addsP inp.cache
           (getRelObjects (sortQidToId inp.backendIds) inp.cache.qidToId))
           (getRelObjects (sortQidToId inp.backendIds) inp.cache.qidToId).length
           inp.secP).1
         lgrid := (populateSection (addsL inp.cache
           (getRelObjects (sortQidToId inp.backendIds) inp.cache.qidToId))
           (getRelObjects (sortQidToId inp.backendIds) inp.cache.qidToId).length
           inp.secL).1
         lpgrid := (populateSection (addsLP inp.subcell inp.cache
           (getRelObjects (sortQidToId inp.backendIds) inp.cache.qidToId))
           (getRelObjects (sortQidToId inp.backendIds) inp.cache.qidToId).length
           inp.secLP).1 }, true)
    else
      ({ query := inp.q
         ready := true
         objects := getRelObjects (sortQidToId inp.backendIds) inp.cache.qidToId
         pgrid := (populateSection (addsP inp.cache
           (getRelObjects (sortQidToId inp.backendIds) inp.cache.qidToId))
           (getRelObjects (sortQidToId inp.backendIds) inp.cache.qidToId).length
           inp.secP).1
         lgrid := (populateSection (addsL inp.cache
           (getRelObjects (sortQidToId inp.backendIds) inp.cache.qidToId))
           (getRelObjects (sortQidToId inp.backendIds) inp.cache.qidToId).length
           inp.secL).1
         lpgrid := (populateSection (addsLP inp.subcell inp.cache
           (getRelObjects (sortQidToId inp.backendIds) inp.cache.qidToId))
           (getRelObjects (sortQidToId inp.backendIds) inp.cache.qidToId).length
           inp.secLP).1 }, false)

/-- The object list `request` computes: the sorted backend response joined
against the cache's `qidToId`. -/
def reqObjects (inp : ReqInputs) : List (ℕ × ℕ) :=
  getRelObjects (sortQidToId inp.backendIds) inp.cache.qidToId

theorem popGo_ok {β : Type} (adds : ℕ → List β) (ok : ℕ → Bool) :
    ∀ idxs (i : ℕ) (acc : List β), (popGo adds ok idxs i acc).2 = true →
      (popGo adds ok idxs i acc).1 = idxs.foldl (fun a k => a ++ adds k) acc := by
  intro idxs
  induction idxs with
  | nil =>
    intro i acc _
    rfl
  | cons idx rest ih =>
    intro i acc h
    rw [popGo] at h ⊢
    by_cases hc : (i + 1) % 100000 = 0 ∧ ok (i + 1) = false
    · rw [if_pos hc] at h
      simp at h
    · rw [if_neg hc] at h ⊢
      rw [List.foldl_cons]
      exact ih (i + 1) (acc ++ adds idx) h

theorem populateSection_ok {β : Type} (adds : ℕ → List β) (n : ℕ) (ok : ℕ → Bool)
    (h : (populateSection adds n ok).2 = true) :
    (populateSection adds n ok).1 = fullAdds adds n :=
  popGo_ok adds ok (List.range n) 0 [] h

/-- C10.  `request` sets `_ready = false` on entry and `_ready = true` only
as its final statement: the requestor is ready after the call iff no
exception escaped, and on success the objects vector and all three grids
hold the full, uninterrupted pass over every object. -/
theorem C10_ready_iff_no_exception (inp : ReqInputs) (s : ReqState) :
    ((requestRun inp s).1.ready = true ↔ (requestRun inp s).2 = false)
    ∧ ((requestRun inp s).2 = false →
        (requestRun inp s).1.objects = reqObjects inp
        ∧ (requestRun inp s).1.pgrid
            = fullAdds (addsP inp.cache (reqObjects inp)) (reqObjects inp).length
        ∧ (requestRun inp s).1.lgrid
            = fullAdds (addsL inp.cache (reqObjects inp)) (reqObjects inp).length
        ∧ (requestRun inp s).1.lpgrid
            = fullAdds (addsLP inp.subcell inp.cache (reqObjects inp))
                (reqObjects inp).length) := by
  unfold requestRun
  by_cases h1 : inp.memGridP = false ∨ inp.memGridL = false
  · rw [if_pos h1]
    exact ⟨by simp, fun h => by simp at h⟩
  · rw [if_neg h1]
    by_cases h2 : (populateSection (addsP inp.cache
          (getRelObjects (sortQidToId inp.backendIds) inp.cache.qidToId))
          (getRelObjects (sortQidToId inp.backendIds) inp.cache.qidToId).length
          inp.secP).2 = false
        ∨ (populateSection (addsL inp.cache
            (getRelObjects (sortQidToId inp.backendIds) inp.cache.qidToId))
            (getRelObjects (sortQidToId inp.backendIds) inp.cache.qidToId).length
            inp.secL).2 = false
        ∨ (populateSection (addsLP inp.subcell inp.cache
            (getRelObjects (sortQidToId inp.backendIds) inp.cache.qidToId))
            (getRelObjects (sortQidToId inp.backendIds) inp.cache.qidToId).length
            inp.secLP).2 = false
    · rw [if_pos h2]
      exact ⟨by simp, fun h => by simp at h⟩
    · rw [if_neg h2]
      simp only [not_or, Bool.not_eq_false] at h2
      refine ⟨by simp, fun _ => ⟨rfl, ?_, ?_, ?_⟩⟩
      · exact populateSection_ok _ _ _ h2.1
      · exact populateSection_ok _ _ _ h2.2.1
      · exact populateSection_ok _ _ _ h2.2.2

/-- C5, amended.  `request` contains no ready check and never returns early:
its outcome (thrown or not, and the final query / ready / objects, and on
success the whole state) is independent of the requestor's prior state — a
second call with the same query re-runs the full build instead of being a
no-op, and reproduces the same state only to the extent that the backend
answers the re-issued query identically. -/
theorem C5_request_always_rebuilds (inp : ReqInputs) (s s2 : ReqState) :
    (requestRun inp s).2 = (requestRun inp s2).2
    ∧ (requestRun inp s).1.query = (requestRun inp s2).1.query
    ∧ (requestRun inp s).1.ready = (requestRun inp s2).1.ready
    ∧ (requestRun inp s).1.objects = (requestRun inp s2).1.objects
    ∧ ((requestRun inp s).2 = false → (requestRun inp s).1 = (requestRun inp s2).1) := by
  unfold requestRun
  by_cases h1 : inp.memGridP = false ∨ inp.memGridL = false
  · simp [if_pos h1]
  · simp only [if_neg h1]
    by_cases h2 : (populateSection (addsP inp.cache
          (getRelObjects (sortQidToId inp.backendIds) inp.cache.qidToId))
          (getRelObjects (sortQidToId inp.backendIds) inp.cache.qidToId).length
          inp.secP).2 = false
        ∨ (populateSection (addsL inp.cache
            (getRelObjects (sortQidToId inp.backendIds) inp.cache.qidToId))
            (getRelObjects (sortQidToId inp.backendIds) inp.cache.qidToId).length
            inp.secL).2 = false
        ∨ (populateSection (addsLP inp.subcell inp.cache
            (getRelObjects (sortQidToId inp.backendIds) inp.cache.qidToId))
            (getRelObjects (sortQidToId inp.backendIds) inp.cache.qidToId).length
            inp.secLP).2 = false
    · simp [if_pos h2]
    · simp [if_neg h2]

/-- A concrete cache for exercising `request`: one point geometry (gid 0)
and one `qidToId` entry mapping qid 5 to it. -/
def demoCache : CacheState := ⟨[(1, 2)], [], [], [⟨5, 0⟩]⟩

/-- A concrete request input whose backend answers qid 5 with row id 7 and
whose memory checks all pass. -/
def demoInp : ReqInputs :=
  ⟨[Char.ofNat 113], demoCache, [⟨5, 7⟩], true, true,
   fun _ => true, fun _ => true, fun _ => true, fun _ => ((0, 0), (0, 0))⟩

/-- The same query, but the backend now returns no rows. -/
def demoInpEmpty : ReqInputs := { demoInp with backendIds := [] }

/-- The requestor's state before any request. -/
def emptyReqState : ReqState := ⟨[], false, [], [], [], []⟩

/-- An arbitrary distinct prior state, to instantiate state-independence. -/
def demoAltState : ReqState := ⟨[Char.ofNat 120], true, [(3, 3)], [], [], []⟩

/-- C5, counterexample to the original claim.  A second `request` with the
byte-identical query is NOT a no-op returning the cached state unchanged:
the first call (backend answers one row) leaves a ready state with a
non-empty objects vector, and the repeated call — same query, but the
re-issued backend request now returning no rows — rebuilds everything and
ends with a different (empty) objects vector. -/
theorem C5_counterexample :
    demoInpEmpty.q = demoInp.q
    ∧ (requestRun demoInp emptyReqState).1.ready = true
    ∧ (requestRun demoInpEmpty (requestRun demoInp emptyReqState).1).1.objects
        ≠ (requestRun demoInp emptyReqState).1.objects :=
  ⟨rfl, by decide, by decide⟩

theorem C10_ready_iff_no_exception_witness :
    ((requestRun demoInp emptyReqState).1.ready = true
        ↔ (requestRun demoInp emptyReqState).2 = false)
    ∧ ((requestRun demoInp emptyReqState).2 = false →
        (requestRun demoInp emptyReqState).1.objects = reqObjects demoInp
        ∧ (requestRun demoInp emptyReqState).1.pgrid
            = fullAdds (addsP demoInp.cache (reqObjects demoInp))
                (reqObjects demoInp).length
        ∧ (requestRun demoInp emptyReqState).1.lgrid
            = fullAdds (addsL demoInp.cache (reqObjects demoInp))
                (reqObjects demoInp).length
        ∧ (requestRun demoInp emptyReqState).1.lpgrid
            = fullAdds (addsLP demoInp.subcell demoInp.cache (reqObjects demoInp))
                (reqObjects demoInp).length) :=
  C10_ready_iff_no_exception demoInp emptyReqState

theorem C5_request_always_rebuilds_witness :
    (requestRun demoInp emptyReqState).2 = (requestRun demoInp demoAltState).2
    ∧ (requestRun demoInp emptyReqState).1.query
        = (requestRun demoInp demoAltState).1.query
    ∧ (requestRun demoInp emptyReqState).1.ready
        = (requestRun demoInp demoAltState).1.ready
    ∧ (requestRun demoInp emptyReqState).1.objects
        = (requestRun demoInp demoAltState).1.objects
    ∧ ((requestRun demoInp emptyReqState).2 = false →
        (requestRun demoInp emptyReqState).1 = (requestRun demoInp demoAltState).1) :=
  C5_request_always_rebuilds demoInp emptyReqState demoAltState
